import Mathlib

/-!
Shallow embedding of `src/cbits/safe.c`: the protected-operation library
(`plua_*` wrappers, each invoking a one-shot auxiliary C closure `s_*`
through the engine's protected-call primitive) and the Rust-callback
trampoline (`s_call_rust`, `plua_pushrclosure`).

The value stack is a `List Value` with the TOP of the stack at the HEAD of
the list.  Stack indices follow the engine convention: positive indices
count from the bottom (1 = bottom), negative indices count from the top
(-1 = top).

The raw engine primitives (`lua_gettable`, `luaL_len`, allocation, ...) are
an external collaborator; they are modelled from the Lua reference manual,
without metatables, with integer keys/values only where the wrappers need
them, and with an explicit allocation oracle (a list of Booleans consumed
by each allocating primitive) so that out-of-memory failures of protected
calls are representable.  All error statuses are collapsed to `LUA_ERRRUN`
(2); the claims under study depend only on success (0) versus failure.
-/

/-- Names of the C functions defined in `safe.c` (the auxiliary closures
and the trampoline), used as the function part of engine function values. -/
inductive CFunId where
  | sNewtable
  | sLen
  | sGeti
  | sGettable
  | sNewthread
  | sNewuserdata
  | sNext
  | sPushcclosure
  | sPushlstring
  | sPushstring
  | sRawset
  | sSettable
  | sTostring
  | sCallRust
deriving DecidableEq

/-- Engine values as far as the wrappers can observe them: nil, booleans,
integers, strings, light userdata (a raw address), tables / threads /
full userdata (heap identifiers), plain C functions (immediate values)
and C closures (heap objects carrying their upvalues). -/
inductive Value where
  | nil
  | boolean (b : Bool)
  | integer (n : Int)
  | str (s : String)
  | lightud (addr : Nat)
  | table (id : Nat)
  | thread (id : Nat)
  | userdata (addr : Nat)
  | cfun (f : CFunId)
  | closure (id : Nat)
deriving DecidableEq

/-- Engine heap: tables as association lists (entry order is iteration
order), C closures (their function and their upvalue list, upvalue 1
first), a fresh-identifier counter, the host memory cells written through
the `char const**` output parameter of the string-coercion wrapper, and
the allocation oracle (`[]` means every allocation succeeds). -/
structure Heap where
  tables : List (Nat × List (Value × Value))
  closures : List (Nat × CFunId × List Value)
  nextId : Nat
  mem : List (Nat × Option String)
  oracle : List Bool
deriving DecidableEq

/-- Semantic environment: the registered Rust callbacks (by the address of
their function pointer; a callback receives its frame's stack and the heap
and returns its integer result code together with the stack and heap it
leaves behind), and the host byte memory read by the two string push
wrappers (`cbytes a n` is the `n`-byte string at address `a`, `cstr a` the
NUL-terminated string at address `a`, with address 0 standing for NULL). -/
structure Env where
  cbs : Nat → List Value → Heap → Int × List Value × Heap
  cbytes : Nat → Nat → String
  cstr : Nat → String

/-- Result of one allocation attempt: consume the head of the oracle. -/
def allocStep (h : Heap) : Bool × Heap :=
  match h.oracle with
  | [] => (true, h)
  | b :: r => (b, { h with oracle := r })

/-- Fixed error value raised by a failed allocation. -/
def memError : Value := Value.str "not enough memory"

/-- Result of a risky engine primitive: a value (or other payload) and the
heap on success, or a raised error value and the heap on failure. -/
inductive ERes (A : Type) where
  | ok (a : A) (h : Heap)
  | err (e : Value) (h : Heap)
deriving DecidableEq

/-- Value stored at stack index `i` (positive = from the bottom, 1-based;
negative = from the top, -1 = top); `nil` outside the valid range. -/
def valueAt (st : List Value) (i : Int) : Value :=
  if 0 < i ∧ i ≤ (st.length : Int) then
    ((st.get? (st.length - i.toNat)).getD Value.nil)
  else if -(st.length : Int) ≤ i ∧ i < 0 then
    ((st.get? ((-i).toNat - 1)).getD Value.nil)
  else Value.nil

/-- Model of `lua_absindex`: positive and pseudo indices are returned
unchanged, a top-relative index is converted to its absolute position. -/
def lua_absindex (st : List Value) (i : Int) : Int :=
  if 0 < i ∨ i ≤ -1001000 then i else (st.length : Int) + i + 1

/-- Model of `lua_pushvalue`: push a copy of the value at index `i`. -/
def lua_pushvalue (st : List Value) (i : Int) : List Value :=
  valueAt st i :: st

/-- Model of `lua_rotate`: rotate the segment between index `idx` and the
top by `n` positions in the direction of the top (negative `n`: towards
the bottom).  In the top-at-head representation, rotating towards the top
by `k` maps the prefix `p` of the segment to `p.drop k ++ p.take k`. -/
def lua_rotate (st : List Value) (idx : Int) (n : Int) : List Value :=
  let a : Int := if 0 < idx then idx else (st.length : Int) + idx + 1
  let m : Int := (st.length : Int) - a + 1
  if 0 < m then
    let mm := m.toNat
    let k := (n % m).toNat
    let p := st.take mm
    (p.drop k ++ p.take k) ++ st.drop mm
  else st

/-- Model of `lua_insert(state, idx)`, which is `lua_rotate(state, idx, 1)`. -/
def lua_insert (st : List Value) (idx : Int) : List Value :=
  lua_rotate st idx 1

/-- Model of `lua_replace(state, a)` for an absolute index `a`: pop the top
value and store it at slot `a`. -/
def lua_replace (st : List Value) (a : Int) : List Value :=
  match st with
  | [] => []
  | x :: rest => rest.set (rest.length - a.toNat) x

/-- Model of `lua_tointeger` restricted to the uses in `safe.c` (the
wrappers only ever read back integers they themselves pushed). -/
def lua_tointeger (v : Value) : Int :=
  match v with
  | Value.integer n => n
  | _ => 0

/-- Model of `lua_touserdata`: address of a light or full userdata, 0
(NULL) otherwise. -/
def lua_touserdata (v : Value) : Nat :=
  match v with
  | Value.lightud a => a
  | Value.userdata a => a
  | _ => 0

/-- Model of `lua_tothread`: thread identifier, 0 (NULL) otherwise. -/
def lua_tothread (v : Value) : Nat :=
  match v with
  | Value.thread i => i
  | _ => 0

/-- Model of `lua_tocfunction`: the C function, if the value is one. -/
def lua_tocfunction (v : Value) : Option CFunId :=
  match v with
  | Value.cfun f => some f
  | _ => none

/-- Look up a table body in the heap. -/
def lookupTable (h : Heap) (id : Nat) : Option (List (Value × Value)) :=
  (h.tables.find? (fun p => p.1 == id)).map (fun p => p.2)

/-- Look up a C closure in the heap. -/
def lookupClosure (h : Heap) (id : Nat) : Option (CFunId × List Value) :=
  (h.closures.find? (fun p => p.1 == id)).map (fun p => p.2)

/-- Store a table body back into the heap. -/
def setTable (h : Heap) (id : Nat) (es : List (Value × Value)) : Heap :=
  { h with tables := h.tables.map (fun p => if p.1 == id then (id, es) else p) }

/-- Value associated with key `k` in an association list (`nil` if the key
is absent; plain tables map absent keys to `nil`). -/
def rawget (es : List (Value × Value)) (k : Value) : Value :=
  match es.find? (fun e => e.1 == k) with
  | some e => e.2
  | none => Value.nil

/-- Update an association list at key `k`: assigning `nil` deletes the
key, assigning to a present key overwrites in place, and a fresh key is
appended at the end (the model's iteration order). -/
def setEntry (es : List (Value × Value)) (k v : Value) : List (Value × Value) :=
  if v = Value.nil then es.filter (fun e => !(e.1 == k))
  else if es.any (fun e => e.1 == k) then
    es.map (fun e => if e.1 == k then (k, v) else e)
  else es ++ [(k, v)]

/-- Entry following the first entry with key `k` in iteration order:
`some r.head?` when `k` is found with tail `r`, `none` when `k` is not a
key (an invalid key for iteration). -/
def nextAfter (es : List (Value × Value)) (k : Value) : Option (Option (Value × Value)) :=
  match es with
  | [] => none
  | e :: rest => if e.1 = k then some rest.head? else nextAfter rest k

/-- Model of `lua_gettable` (no metatables in the model): indexing a table
reads it, indexing any other value raises. -/
def engineGet (h : Heap) (t k : Value) : ERes Value :=
  match t with
  | Value.table id =>
    match lookupTable h id with
    | some es => ERes.ok (rawget es k) h
    | none => ERes.err (Value.str "attempt to index an invalid table") h
  | _ => ERes.err (Value.str "attempt to index a non-table value") h

/-- Model of `lua_settable` / `lua_rawset` (no metatables in the model):
storing into a table with a non-nil key updates it, a nil key or a
non-table target raises. -/
def engineSet (h : Heap) (t k v : Value) : ERes Unit :=
  match t with
  | Value.table id =>
    match lookupTable h id with
    | some es =>
      if k = Value.nil then ERes.err (Value.str "table index is nil") h
      else ERes.ok () (setTable h id (setEntry es k v))
    | none => ERes.err (Value.str "attempt to index an invalid table") h
  | _ => ERes.err (Value.str "attempt to index a non-table value") h

/-- Length of the initial integer-keyed segment `1..n` of a table body
(the border returned by the `#` operator on the model's tables), computed
with fuel bounded by the number of entries. -/
def borderFuel (es : List (Value × Value)) : Nat → Nat → Nat
  | 0, n => n
  | fuel + 1, n =>
    if (es.find? (fun e => e.1 == Value.integer (n + 1))).isSome then
      borderFuel es fuel (n + 1)
    else n

/-- Model of `luaL_len`: string length, table border, anything else raises. -/
def engineLen (h : Heap) (v : Value) : ERes Int :=
  match v with
  | Value.str s => ERes.ok (s.length : Int) h
  | Value.table id =>
    match lookupTable h id with
    | some es => ERes.ok ((borderFuel es es.length 0 : Nat) : Int) h
    | none => ERes.err (Value.str "attempt to get length of an invalid table") h
  | _ => ERes.err (Value.str "attempt to get length of a non-table value") h

/-- Model of `lua_next` on the table `t` with control key `k`: `nil` asks
for the first entry, a present key for its successor, an absent key
raises; `none` in the payload signals end of iteration. -/
def engineNext (h : Heap) (t k : Value) : ERes (Option (Value × Value)) :=
  match t with
  | Value.table id =>
    match lookupTable h id with
    | some es =>
      if k = Value.nil then ERes.ok es.head? h
      else
        match nextAfter es k with
        | some r => ERes.ok r h
        | none => ERes.err (Value.str "invalid key to next") h
    | none => ERes.err (Value.str "attempt to iterate an invalid table") h
  | _ => ERes.err (Value.str "attempt to iterate a non-table value") h

/-- Model of `lua_newtable`: allocate a fresh empty table (may raise a
memory error, per the allocation oracle). -/
def engineNewtable (h : Heap) : ERes Value :=
  let (b, h1) := allocStep h
  if b then
    ERes.ok (Value.table h1.nextId)
      { h1 with tables := (h1.nextId, []) :: h1.tables, nextId := h1.nextId + 1 }
  else ERes.err memError h1

/-- Model of `lua_newthread`: allocate a fresh thread. -/
def engineNewthread (h : Heap) : ERes Value :=
  let (b, h1) := allocStep h
  if b then
    ERes.ok (Value.thread h1.nextId) { h1 with nextId := h1.nextId + 1 }
  else ERes.err memError h1

/-- Model of `lua_newuserdata`: allocate a fresh memory block (the size
only matters to the allocator, which the oracle abstracts). -/
def engineNewuserdata (h : Heap) (size : Int) : ERes Value :=
  let (b, h1) := allocStep h
  if b then
    ERes.ok (Value.userdata h1.nextId) { h1 with nextId := h1.nextId + 1 }
  else ERes.err memError h1

/-- Model of `lua_tolstring` on the value `v`: a string converts to
itself, an integer is formatted (allocating, hence fallible), anything
else yields a NULL pointer without conversion.  The payload is the pointer
written through the output parameter (`none` = NULL) and the value now in
the inspected slot (conversion happens in place on the stack). -/
def engineTostring (h : Heap) (v : Value) : ERes (Option String × Value) :=
  match v with
  | Value.str s => ERes.ok (some s, Value.str s) h
  | Value.integer n =>
    let (b, h1) := allocStep h
    if b then ERes.ok (some (toString n), Value.str (toString n)) h1
    else ERes.err memError h1
  | _ => ERes.ok (none, v) h

/-- Update the host memory cell at `addr` in a memory list. -/
def memSet (m : List (Nat × Option String)) (addr : Nat) (c : Option String) :
    List (Nat × Option String) :=
  if m.any (fun p => p.1 == addr) then
    m.map (fun p => if p.1 == addr then (addr, c) else p)
  else (addr, c) :: m

/-- Write a host memory cell (the `char const**` output parameter of the
string-coercion wrapper). -/
def memWrite (h : Heap) (addr : Nat) (c : Option String) : Heap :=
  { h with mem := memSet h.mem addr c }

/-- Read a host memory cell. -/
def memRead (h : Heap) (addr : Nat) : Option (Option String) :=
  (h.mem.find? (fun p => p.1 == addr)).map (fun p => p.2)

/-- Outcome of running the body of one of the C functions of `safe.c`:
either a normal return of a result count `n` (the top `n` values of the
left-behind frame stack are the results; `-1` is `LUA_MULTRET`), or a
raise of an error value. -/
inductive CRet where
  | ret (n : Int) (st : List Value) (h : Heap)
  | raise (e : Value) (h : Heap)
deriving DecidableEq

/-- Bodies of the auxiliary closures `s_newtable` .. `s_tostring` and of
the trampoline `s_call_rust`, translated line by line from `safe.c`.
`upvs` are the upvalues of the invoked function value (upvalue 1 first),
`st` the frame stack holding exactly the call's arguments (top at head). -/
def runBody (env : Env) (f : CFunId) (upvs : List Value) (st : List Value) (h : Heap) : CRet :=
  match f with
  | CFunId.sNewtable =>
    match engineNewtable h with
    | ERes.ok v h1 => CRet.ret 1 (v :: st) h1
    | ERes.err e h1 => CRet.raise e h1
  | CFunId.sLen =>
    match engineLen h (valueAt st (-1)) with
    | ERes.ok n h1 => CRet.ret 1 (Value.integer n :: st) h1
    | ERes.err e h1 => CRet.raise e h1
  | CFunId.sGeti =>
    match engineGet h (valueAt st (-2)) (valueAt st (-1)) with
    | ERes.ok v h1 => CRet.ret 1 (v :: st.drop 1) h1
    | ERes.err e h1 => CRet.raise e h1
  | CFunId.sGettable =>
    match engineGet h (valueAt st (-2)) (valueAt st (-1)) with
    | ERes.ok v h1 => CRet.ret 1 (v :: st.drop 1) h1
    | ERes.err e h1 => CRet.raise e h1
  | CFunId.sNewthread =>
    match engineNewthread h with
    | ERes.ok v h1 => CRet.ret 1 (v :: st) h1
    | ERes.err e h1 => CRet.raise e h1
  | CFunId.sNewuserdata =>
    let size := lua_tointeger (valueAt st (-1))
    match engineNewuserdata h size with
    | ERes.ok v h1 => CRet.ret 1 (v :: st.drop 1) h1
    | ERes.err e h1 => CRet.raise e h1
  | CFunId.sNext =>
    match engineNext h (valueAt st (-2)) (valueAt st (-1)) with
    | ERes.ok none h1 => CRet.ret 0 (st.drop 1) h1
    | ERes.ok (some kv) h1 => CRet.ret 2 (kv.2 :: kv.1 :: st.drop 1) h1
    | ERes.err e h1 => CRet.raise e h1
  | CFunId.sPushcclosure =>
    match lua_tocfunction (valueAt st (-1)) with
    | some cf =>
      let st1 := st.drop 1
      if st1.length = 0 then CRet.ret 1 [Value.cfun cf] h
      else
        let (b, h1) := allocStep h
        if b then
          CRet.ret 1 [Value.closure h1.nextId]
            { h1 with closures := (h1.nextId, cf, st1.reverse) :: h1.closures,
                      nextId := h1.nextId + 1 }
        else CRet.raise memError h1
    | none => CRet.raise (Value.str "attempt to capture a non-function") h
  | CFunId.sPushlstring =>
    let a := lua_touserdata (valueAt st (-2))
    let len := (lua_tointeger (valueAt st (-1))).toNat
    let (b, h1) := allocStep h
    if b then CRet.ret 1 (Value.str (env.cbytes a len) :: st.drop 2) h1
    else CRet.raise memError h1
  | CFunId.sPushstring =>
    let a := lua_touserdata (valueAt st (-1))
    if a = 0 then CRet.ret 1 (Value.nil :: st.drop 1) h
    else
      let (b, h1) := allocStep h
      if b then CRet.ret 1 (Value.str (env.cstr a) :: st.drop 1) h1
      else CRet.raise memError h1
  | CFunId.sRawset =>
    match engineSet h (valueAt st (-3)) (valueAt st (-2)) (valueAt st (-1)) with
    | ERes.ok _ h1 => CRet.ret 0 (st.drop 2) h1
    | ERes.err e h1 => CRet.raise e h1
  | CFunId.sSettable =>
    match engineSet h (valueAt st (-3)) (valueAt st (-2)) (valueAt st (-1)) with
    | ERes.ok _ h1 => CRet.ret 0 (st.drop 2) h1
    | ERes.err e h1 => CRet.raise e h1
  | CFunId.sTostring =>
    let a := lua_touserdata (valueAt st (-1))
    match engineTostring h (valueAt st (-2)) with
    | ERes.ok cv h1 => CRet.ret 1 (cv.2 :: st.drop 2) (memWrite h1 a cv.1)
    | ERes.err e h1 => CRet.raise e h1
  | CFunId.sCallRust =>
    let a := lua_touserdata (upvs.headD Value.nil)
    let rsh := env.cbs a st h
    if rsh.1 = -1 then CRet.ret (-1) rsh.2.1 rsh.2.2
    else if rsh.1 = -2 then
      CRet.raise (Value.str "stack overflow in rust callback") rsh.2.2
    else if rsh.1 = -3 then CRet.raise (valueAt rsh.2.1 (-1)) rsh.2.2
    else CRet.ret rsh.1 rsh.2.1 rsh.2.2

/-- Outcome of a completed protected function call: the list of produced
result values, or the error value the engine caught. -/
inductive CallResult where
  | ok (results : List Value) (h : Heap)
  | err (e : Value) (h : Heap)
deriving DecidableEq

/-- Run a C function to completion: a returned count `n ≥ 0` selects the
top `n` values of the frame as the results, `LUA_MULTRET` selects the
whole frame; a raise is caught by the enclosing protected call. -/
def runCFun (env : Env) (f : CFunId) (upvs : List Value) (args : List Value) (h : Heap) :
    CallResult :=
  match runBody env f upvs args h with
  | CRet.ret n st1 h1 => CallResult.ok (if n < 0 then st1 else st1.take n.toNat) h1
  | CRet.raise e h1 => CallResult.err e h1

/-- Invoke a stack value as a function. -/
def callValue (env : Env) (f : Value) (args : List Value) (h : Heap) : CallResult :=
  match f with
  | Value.cfun g => runCFun env g [] args h
  | Value.closure id =>
    match lookupClosure h id with
    | some gu => runCFun env gu.1 gu.2 args h
    | none => CallResult.err (Value.str "attempt to call an invalid closure") h
  | _ => CallResult.err (Value.str "attempt to call a non-function value") h

/-- Adjust a result list to the caller's expected count: `LUA_MULTRET`
keeps everything, otherwise extra results (nearest the top) are dropped
and missing ones are filled with `nil`. -/
def adjustResults (nres : Int) (rs : List Value) : List Value :=
  if nres < 0 then rs
  else if nres.toNat ≤ rs.length then rs.drop (rs.length - nres.toNat)
  else List.replicate (nres.toNat - rs.length) Value.nil ++ rs

/-- Model of `lua_pcall(state, nargs, nres, 0)`: the function value sits
below its `nargs` arguments; on success they are replaced by the adjusted
results and status 0 is returned, on a caught raise they are replaced by
the single error value and a nonzero status is returned. -/
def lua_pcall (env : Env) (st : List Value) (nargs : Nat) (nres : Int) (h : Heap) :
    Int × List Value × Heap :=
  let args := st.take nargs
  match st.drop nargs with
  | [] => (2, [Value.str "attempt to call a nil value"], h)
  | f :: rest =>
    match callValue env f args h with
    | CallResult.ok rs h1 => (0, adjustResults nres rs ++ rest, h1)
    | CallResult.err e h1 => (2, e :: rest, h1)

/-- One primitive step of a wrapper's stack set-up code, as written in
`safe.c` before the protected call: normalizing the caller's index
argument, pushing an auxiliary closure, pushing a copy of the value the
index denotes, pushing an immediate value, and the two relocation
primitives. -/
inductive Step where
  | absindexArg
  | pushcfun (f : CFunId)
  | pushvalueArg
  | pushVal (v : Value)
  | ins (i : Int)
  | rot (i : Int) (n : Int)
deriving DecidableEq

/-- Whether a set-up step pushes a value onto the stack. -/
def stepIsPush : Step → Bool
  | Step.pushcfun _ => true
  | Step.pushvalueArg => true
  | Step.pushVal _ => true
  | _ => false

/-- Execute one set-up step on the pair (stack, current index argument). -/
def runStep (p : List Value × Int) (s : Step) : List Value × Int :=
  match s with
  | Step.absindexArg => (p.1, lua_absindex p.1 p.2)
  | Step.pushcfun f => (Value.cfun f :: p.1, p.2)
  | Step.pushvalueArg => (lua_pushvalue p.1 p.2, p.2)
  | Step.pushVal v => (v :: p.1, p.2)
  | Step.ins i => (lua_insert p.1 i, p.2)
  | Step.rot i n => (lua_rotate p.1 i n, p.2)

/-- Execute a wrapper's set-up sequence. -/
def runSteps (steps : List Step) (st : List Value) (index : Int) : List Value × Int :=
  steps.foldl runStep (st, index)

/-- Set-up sequence of `pluaL_len` (safe.c lines 20-22). -/
def lenSteps : List Step :=
  [Step.absindexArg, Step.pushcfun CFunId.sLen, Step.pushvalueArg]

/-- Set-up sequence of `plua_geti` (safe.c lines 37-40). -/
def getiSteps (i : Int) : List Step :=
  [Step.absindexArg, Step.pushcfun CFunId.sGeti, Step.pushvalueArg,
   Step.pushVal (Value.integer i)]

/-- Set-up sequence of `plua_gettable` (safe.c lines 50-53). -/
def gettableSteps : List Step :=
  [Step.absindexArg, Step.pushcfun CFunId.sGettable, Step.pushvalueArg,
   Step.rot (-3) (-1)]

/-- Set-up sequence of `plua_rawset` (safe.c lines 161-164): note that it
contains no index normalization. -/
def rawsetSteps : List Step :=
  [Step.pushvalueArg, Step.ins (-3), Step.pushcfun CFunId.sRawset, Step.ins (-4)]

/-- Set-up sequence of `plua_settable` (safe.c lines 174-177): note that
it contains no index normalization. -/
def settableSteps : List Step :=
  [Step.pushvalueArg, Step.ins (-3), Step.pushcfun CFunId.sSettable, Step.ins (-4)]

/-- Set-up sequence of `plua_tostring` (safe.c lines 189-192); `addr` is
the address of the caller's `char const**` output parameter. -/
def tostringSteps (addr : Nat) : List Step :=
  [Step.absindexArg, Step.pushcfun CFunId.sTostring, Step.pushvalueArg,
   Step.pushVal (Value.lightud addr)]

/-- Wrapper `plua_newtable` (safe.c lines 9-12). -/
def plua_newtable (env : Env) (st : List Value) (h : Heap) : Int × List Value × Heap :=
  lua_pcall env (Value.cfun CFunId.sNewtable :: st) 0 1 h

/-- Wrapper `pluaL_len` (safe.c lines 19-29); the last component models
the `lua_Integer*` output parameter (`none` = not written). -/
def pluaL_len (env : Env) (st : List Value) (h : Heap) (index : Int) :
    Int × List Value × Heap × Option Int :=
  let s1 := runSteps lenSteps st index
  let rsh := lua_pcall env s1.1 1 1 h
  if rsh.1 = 0 then
    (rsh.1, rsh.2.1.drop 1, rsh.2.2, some (lua_tointeger (valueAt rsh.2.1 (-1))))
  else (rsh.1, rsh.2.1, rsh.2.2, none)

/-- Wrapper `plua_geti` (safe.c lines 36-42). -/
def plua_geti (env : Env) (st : List Value) (h : Heap) (index : Int) (i : Int) :
    Int × List Value × Heap :=
  let s1 := runSteps (getiSteps i) st index
  lua_pcall env s1.1 2 1 h

/-- Wrapper `plua_gettable` (safe.c lines 49-55). -/
def plua_gettable (env : Env) (st : List Value) (h : Heap) (index : Int) :
    Int × List Value × Heap :=
  let s1 := runSteps gettableSteps st index
  lua_pcall env s1.1 2 1 h

/-- Wrapper `plua_newthread` (safe.c lines 62-69); the last component
models the `lua_State**` output parameter. -/
def plua_newthread (env : Env) (st : List Value) (h : Heap) :
    Int × List Value × Heap × Option Nat :=
  let rsh := lua_pcall env (Value.cfun CFunId.sNewthread :: st) 0 1 h
  if rsh.1 = 0 then (rsh.1, rsh.2.1, rsh.2.2, some (lua_tothread (valueAt rsh.2.1 (-1))))
  else (rsh.1, rsh.2.1, rsh.2.2, none)

/-- Wrapper `plua_newuserdata` (safe.c lines 78-86); the last component
models the `void**` output parameter. -/
def plua_newuserdata (env : Env) (st : List Value) (h : Heap) (size : Int) :
    Int × List Value × Heap × Option Nat :=
  let st1 := Value.integer size :: Value.cfun CFunId.sNewuserdata :: st
  let rsh := lua_pcall env st1 1 1 h
  if rsh.1 = 0 then
    (rsh.1, rsh.2.1, rsh.2.2, some (lua_touserdata (valueAt rsh.2.1 (-1))))
  else (rsh.1, rsh.2.1, rsh.2.2, none)

/-- Wrapper `plua_next` (safe.c lines 96-111); the last component models
the `int*` output parameter (1 = pair produced, 0 = exhausted). -/
def plua_next (env : Env) (st : List Value) (h : Heap) (index : Int) :
    Int × List Value × Heap × Option Int :=
  let top : Int := (st.length : Int) - 1
  let idx := lua_absindex st index
  let st1 := Value.cfun CFunId.sNext :: st
  let st2 := lua_pushvalue st1 idx
  let st3 := lua_rotate st2 (-3) (-1)
  let rsh := lua_pcall env st3 2 (-1) h
  if rsh.1 = 0 then
    (rsh.1, rsh.2.1, rsh.2.2,
      some (if (rsh.2.1.length : Int) - top = 2 then (1 : Int) else 0))
  else (rsh.1, rsh.2.1, rsh.2.2, none)

/-- Wrapper `plua_pushcclosure` (safe.c lines 120-125); the `n` values to
capture are already on the stack. -/
def plua_pushcclosure (env : Env) (st : List Value) (h : Heap) (function : CFunId) (n : Nat) :
    Int × List Value × Heap :=
  let st1 := lua_insert (Value.cfun CFunId.sPushcclosure :: st) (-((n : Int) + 1))
  let st2 := Value.cfun function :: st1
  lua_pcall env st2 (n + 1) 1 h

/-- Wrapper `plua_pushlstring` (safe.c lines 135-140); `s` is the address
of the host byte buffer. -/
def plua_pushlstring (env : Env) (st : List Value) (h : Heap) (s : Nat) (len : Nat) :
    Int × List Value × Heap :=
  let st1 := Value.integer (len : Int) :: Value.lightud s :: Value.cfun CFunId.sPushlstring :: st
  lua_pcall env st1 2 1 h

/-- Wrapper `plua_pushstring` (safe.c lines 149-153). -/
def plua_pushstring (env : Env) (st : List Value) (h : Heap) (s : Nat) :
    Int × List Value × Heap :=
  let st1 := Value.lightud s :: Value.cfun CFunId.sPushstring :: st
  lua_pcall env st1 1 1 h

/-- Wrapper `plua_rawset` (safe.c lines 160-166); key and value are on the
top of the stack, the table at `index`. -/
def plua_rawset (env : Env) (st : List Value) (h : Heap) (index : Int) :
    Int × List Value × Heap :=
  let s1 := runSteps rawsetSteps st index
  lua_pcall env s1.1 3 0 h

/-- Wrapper `plua_settable` (safe.c lines 173-179). -/
def plua_settable (env : Env) (st : List Value) (h : Heap) (index : Int) :
    Int × List Value × Heap :=
  let s1 := runSteps settableSteps st index
  lua_pcall env s1.1 3 0 h

/-- Wrapper `plua_tostring` (safe.c lines 188-198); `addr` is the address
of the `char const**` output parameter, passed through the stack as a
light userdata. -/
def plua_tostring (env : Env) (st : List Value) (h : Heap) (index : Int) (addr : Nat) :
    Int × List Value × Heap :=
  let s1 := runSteps (tostringSteps addr) st index
  let rsh := lua_pcall env s1.1 2 1 h
  if rsh.1 = 0 then (rsh.1, lua_replace rsh.2.1 s1.2, rsh.2.2)
  else (rsh.1, rsh.2.1, rsh.2.2)

/-- Wrapper `plua_pushrclosure` (safe.c lines 221-225); `a` is the address
of the Rust callback, the `n` values to capture are already on the stack. -/
def plua_pushrclosure (env : Env) (st : List Value) (h : Heap) (a : Nat) (n : Nat) :
    Int × List Value × Heap :=
  let st1 := lua_insert (Value.lightud a :: st) (-((n : Int) + 1))
  plua_pushcclosure env st1 h CFunId.sCallRust (n + 1)

/-! Basic lemmas about the engine model. -/

theorem adjustResults_length (nres : Int) (rs : List Value) (hres : 0 ≤ nres) :
    (adjustResults nres rs).length = nres.toNat := by
  unfold adjustResults
  rw [if_neg (by omega)]
  by_cases hle : nres.toNat ≤ rs.length
  · rw [if_pos hle]
    simp only [List.length_drop]
    omega
  · rw [if_neg hle]
    simp only [List.length_append, List.length_replicate]
    omega

theorem adjustResults_multret (rs : List Value) : adjustResults (-1) rs = rs := by
  unfold adjustResults
  rw [if_pos (by omega)]

/-- A protected call with a fixed nonnegative expected result count either
succeeds, replacing the function and its arguments by exactly that many
results, or fails, replacing them by a single error value. -/
theorem lua_pcall_cases (env : Env) (args : List Value) (f : Value) (rest : List Value)
    (nargs : Nat) (nres : Int) (h : Heap) (hargs : args.length = nargs) (hres : 0 ≤ nres) :
    (∃ rs h1, rs.length = nres.toNat ∧
        lua_pcall env (args ++ f :: rest) nargs nres h = (0, rs ++ rest, h1)) ∨
    (∃ e h1, lua_pcall env (args ++ f :: rest) nargs nres h = (2, e :: rest, h1)) := by
  subst hargs
  unfold lua_pcall
  simp only [List.take_left, List.drop_left]
  cases hc : callValue env f args h with
  | ok rs h1 =>
    exact Or.inl ⟨adjustResults nres rs, h1, adjustResults_length nres rs hres, rfl⟩
  | err e h1 => exact Or.inr ⟨e, h1, rfl⟩

/-- A protected call expecting `LUA_MULTRET` results either succeeds with
exactly the invoked function's produced results, or fails with a single
error value. -/
theorem lua_pcall_multret_cases (env : Env) (args : List Value) (f : Value) (rest : List Value)
    (nargs : Nat) (h : Heap) (hargs : args.length = nargs) :
    (∃ rs h1, callValue env f args h = CallResult.ok rs h1 ∧
        lua_pcall env (args ++ f :: rest) nargs (-1) h = (0, rs ++ rest, h1)) ∨
    (∃ e h1, lua_pcall env (args ++ f :: rest) nargs (-1) h = (2, e :: rest, h1)) := by
  subst hargs
  unfold lua_pcall
  simp only [List.take_left, List.drop_left]
  cases hc : callValue env f args h with
  | ok rs h1 => exact Or.inl ⟨rs, h1, rfl, by simp [adjustResults_multret]⟩
  | err e h1 => exact Or.inr ⟨e, h1, rfl⟩

/-- Rotating the top segment of length `p.length` in the top-at-head
representation. -/
theorem lua_rotate_top (p rest : List Value) (n : Int) (hp : 0 < p.length) :
    lua_rotate (p ++ rest) (-(p.length : Int)) n =
      (p.drop ((n % (p.length : Int)).toNat) ++ p.take ((n % (p.length : Int)).toNat)) ++ rest := by
  have hne : ¬ ((0 : Int) < -(p.length : Int)) := by omega
  simp only [lua_rotate]
  rw [if_neg hne]
  have hm : ((p ++ rest).length : Int) - (((p ++ rest).length : Int) + -(p.length : Int) + 1) + 1 = (p.length : Int) := by ring
  rw [hm, if_pos (by omega : (0 : Int) < (p.length : Int))]
  have htn : ((p.length : Int)).toNat = p.length := by omega
  rw [htn, List.take_left, List.drop_left]

/-- The `lua_insert(state, -(k+1))` idiom of the wrappers: move the top
value below the `k` values beneath it. -/
theorem lua_insert_top (x : Value) (ups rest : List Value) :
    lua_insert (x :: (ups ++ rest)) (-((ups.length : Int) + 1)) = ups ++ x :: rest := by
  have h1 : x :: (ups ++ rest) = (x :: ups) ++ rest := rfl
  have h2 : -((ups.length : Int) + 1) = -(((x :: ups).length : Int)) := by
    simp
  rw [lua_insert, h1, h2, lua_rotate_top (x :: ups) rest 1 (by simp)]
  rcases ups with _ | ⟨u, us⟩
  · simp
  · have hmod : ((1 : Int) % (((x :: u :: us).length : Int))).toNat = 1 := by
      have : ((x :: u :: us).length : Int) = (us.length : Int) + 2 := by simp; omega
      rw [this]
      rw [Int.emod_eq_of_lt (by omega) (by omega)]
      rfl
    rw [hmod]
    simp

/-- The `lua_rotate(state, -3, -1)` idiom of `plua_gettable` and
`plua_next`: move the top value below the two values beneath it. -/
theorem lua_rotate_neg3 (a b c : Value) (rest : List Value) :
    lua_rotate (a :: b :: c :: rest) (-3) (-1) = c :: a :: b :: rest := by
  have h1 : a :: b :: c :: rest = [a, b, c] ++ rest := rfl
  have h2 : (-3 : Int) = -((([a, b, c] : List Value).length : Int)) := by simp
  rw [h1, h2, lua_rotate_top [a, b, c] rest (-1) (by simp)]
  have hmod : ((-1 : Int) % ((([a, b, c] : List Value).length : Int))).toNat = 2 := by
    simp only [List.length_cons, List.length_nil]
    rfl
  rw [hmod]
  rfl

/-- Specialized `lua_insert(state, -3)`: move the top value below two. -/
theorem lua_insert_neg3 (x a b : Value) (rest : List Value) :
    lua_insert (x :: a :: b :: rest) (-3) = a :: b :: x :: rest := by
  have h := lua_insert_top x [a, b] rest
  norm_num at h
  exact h

/-- Specialized `lua_insert(state, -4)`: move the top value below three. -/
theorem lua_insert_neg4 (x a b c : Value) (rest : List Value) :
    lua_insert (x :: a :: b :: c :: rest) (-4) = a :: b :: c :: x :: rest := by
  have h := lua_insert_top x [a, b, c] rest
  norm_num at h
  exact h

/-- Shape of a protected call that declares exactly one result. -/
theorem pcall_shape1 (env : Env) (args : List Value) (f : Value) (rest : List Value)
    (nargs : Nat) (h : Heap) (hargs : args.length = nargs) :
    (((lua_pcall env (args ++ f :: rest) nargs 1 h).1 = 0 →
        ∃ v, (lua_pcall env (args ++ f :: rest) nargs 1 h).2.1 = v :: rest) ∧
     ((lua_pcall env (args ++ f :: rest) nargs 1 h).1 ≠ 0 →
        ∃ e, (lua_pcall env (args ++ f :: rest) nargs 1 h).2.1 = e :: rest)) := by
  rcases lua_pcall_cases env args f rest nargs 1 h hargs (by omega) with
    ⟨rs, h1, hlen, heq⟩ | ⟨e, h1, heq⟩
  · have hlen1 : rs.length = 1 := by omega
    rcases List.length_eq_one.mp hlen1 with ⟨v, rfl⟩
    rw [heq]
    exact ⟨fun _ => ⟨v, rfl⟩, fun hne => absurd rfl hne⟩
  · rw [heq]
    exact ⟨fun h0 => absurd h0 (by norm_num), fun _ => ⟨e, rfl⟩⟩

/-- Shape of a protected call that declares zero results. -/
theorem pcall_shape0 (env : Env) (args : List Value) (f : Value) (rest : List Value)
    (nargs : Nat) (h : Heap) (hargs : args.length = nargs) :
    (((lua_pcall env (args ++ f :: rest) nargs 0 h).1 = 0 →
        (lua_pcall env (args ++ f :: rest) nargs 0 h).2.1 = rest) ∧
     ((lua_pcall env (args ++ f :: rest) nargs 0 h).1 ≠ 0 →
        ∃ e, (lua_pcall env (args ++ f :: rest) nargs 0 h).2.1 = e :: rest)) := by
  rcases lua_pcall_cases env args f rest nargs 0 h hargs (by omega) with
    ⟨rs, h1, hlen, heq⟩ | ⟨e, h1, heq⟩
  · have hlen0 : rs.length = 0 := by omega
    have : rs = [] := List.length_eq_zero.mp hlen0
    subst this
    rw [heq]
    exact ⟨fun _ => rfl, fun hne => absurd rfl hne⟩
  · rw [heq]
    exact ⟨fun h0 => absurd h0 (by norm_num), fun _ => ⟨e, rfl⟩⟩

/-! Stack-shape lemmas, one per protected wrapper. -/

theorem shape_newtable (env : Env) (st : List Value) (h : Heap) :
    ((plua_newtable env st h).1 = 0 → ∃ v, (plua_newtable env st h).2.1 = v :: st) ∧
    ((plua_newtable env st h).1 ≠ 0 → ∃ e, (plua_newtable env st h).2.1 = e :: st) :=
  pcall_shape1 env [] (Value.cfun CFunId.sNewtable) st 0 h rfl

theorem shape_len (env : Env) (st : List Value) (h : Heap) (index : Int) :
    ((pluaL_len env st h index).1 = 0 → (pluaL_len env st h index).2.1 = st) ∧
    ((pluaL_len env st h index).1 ≠ 0 → ∃ e, (pluaL_len env st h index).2.1 = e :: st) := by
  simp only [pluaL_len]
  have hs : (runSteps lenSteps st index).1 =
      valueAt (Value.cfun CFunId.sLen :: st) (lua_absindex st index) ::
        Value.cfun CFunId.sLen :: st := rfl
  rw [hs]
  rcases lua_pcall_cases env
      [valueAt (Value.cfun CFunId.sLen :: st) (lua_absindex st index)]
      (Value.cfun CFunId.sLen) st 1 1 h rfl (by omega) with
    ⟨rs, h1, hlen, heq⟩ | ⟨e, h1, heq⟩
  · have hlen1 : rs.length = 1 := by omega
    rcases List.length_eq_one.mp hlen1 with ⟨v, rfl⟩
    simp only [List.cons_append, List.nil_append] at heq
    rw [heq]
    norm_num
  · simp only [List.cons_append, List.nil_append] at heq
    rw [heq]
    norm_num

theorem shape_geti (env : Env) (st : List Value) (h : Heap) (index : Int) (i : Int) :
    ((plua_geti env st h index i).1 = 0 → ∃ v, (plua_geti env st h index i).2.1 = v :: st) ∧
    ((plua_geti env st h index i).1 ≠ 0 → ∃ e, (plua_geti env st h index i).2.1 = e :: st) :=
  pcall_shape1 env
    [Value.integer i, valueAt (Value.cfun CFunId.sGeti :: st) (lua_absindex st index)]
    (Value.cfun CFunId.sGeti) st 2 h rfl

theorem shape_gettable (env : Env) (k : Value) (rest : List Value) (h : Heap) (index : Int) :
    ((plua_gettable env (k :: rest) h index).1 = 0 →
      ∃ v, (plua_gettable env (k :: rest) h index).2.1 = v :: rest) ∧
    ((plua_gettable env (k :: rest) h index).1 ≠ 0 →
      ∃ e, (plua_gettable env (k :: rest) h index).2.1 = e :: rest) := by
  have hred : plua_gettable env (k :: rest) h index =
      lua_pcall env
        ([k, valueAt (Value.cfun CFunId.sGettable :: k :: rest) (lua_absindex (k :: rest) index)] ++
          Value.cfun CFunId.sGettable :: rest) 2 1 h := by
    show lua_pcall env
        (lua_rotate
          (valueAt (Value.cfun CFunId.sGettable :: k :: rest) (lua_absindex (k :: rest) index) ::
            Value.cfun CFunId.sGettable :: k :: rest) (-3) (-1)) 2 1 h = _
    rw [lua_rotate_neg3]
    rfl
  rw [hred]
  exact pcall_shape1 env
    [k, valueAt (Value.cfun CFunId.sGettable :: k :: rest) (lua_absindex (k :: rest) index)]
    (Value.cfun CFunId.sGettable) rest 2 h rfl

theorem shape_newthread (env : Env) (st : List Value) (h : Heap) :
    ((plua_newthread env st h).1 = 0 → ∃ v, (plua_newthread env st h).2.1 = v :: st) ∧
    ((plua_newthread env st h).1 ≠ 0 → ∃ e, (plua_newthread env st h).2.1 = e :: st) := by
  simp only [plua_newthread]
  rcases lua_pcall_cases env [] (Value.cfun CFunId.sNewthread) st 0 1 h rfl (by omega) with
    ⟨rs, h1, hlen, heq⟩ | ⟨e, h1, heq⟩
  · have hlen1 : rs.length = 1 := by omega
    rcases List.length_eq_one.mp hlen1 with ⟨v, rfl⟩
    simp only [List.nil_append] at heq
    rw [heq]
    norm_num
  · simp only [List.nil_append] at heq
    rw [heq]
    norm_num

theorem shape_newuserdata (env : Env) (st : List Value) (h : Heap) (size : Int) :
    ((plua_newuserdata env st h size).1 = 0 →
      ∃ v, (plua_newuserdata env st h size).2.1 = v :: st) ∧
    ((plua_newuserdata env st h size).1 ≠ 0 →
      ∃ e, (plua_newuserdata env st h size).2.1 = e :: st) := by
  simp only [plua_newuserdata]
  rcases lua_pcall_cases env [Value.integer size] (Value.cfun CFunId.sNewuserdata) st 1 1 h
      rfl (by omega) with ⟨rs, h1, hlen, heq⟩ | ⟨e, h1, heq⟩
  · have hlen1 : rs.length = 1 := by omega
    rcases List.length_eq_one.mp hlen1 with ⟨v, rfl⟩
    simp only [List.cons_append, List.nil_append] at heq
    rw [heq]
    norm_num
  · simp only [List.cons_append, List.nil_append] at heq
    rw [heq]
    norm_num

theorem runCFun_sNext_results (env : Env) (t k : Value) (h : Heap) (rs : List Value) (h1 : Heap)
    (hok : runCFun env CFunId.sNext [] [k, t] h = CallResult.ok rs h1) :
    rs = [] ∨ ∃ a b, rs = [b, a] := by
  unfold runCFun runBody at hok
  cases he : engineNext h (valueAt [k, t] (-2)) (valueAt [k, t] (-1)) with
  | ok o h2 =>
    cases o with
    | none =>
      rw [he] at hok
      simp at hok
      exact Or.inl hok.1
    | some kv =>
      rw [he] at hok
      simp at hok
      exact Or.inr ⟨kv.1, kv.2, hok.1.symm⟩
  | err e h2 =>
    rw [he] at hok
    simp at hok

theorem shape_next (env : Env) (k : Value) (rest : List Value) (h : Heap) (index : Int) :
    ((plua_next env (k :: rest) h index).1 = 0 →
      ((plua_next env (k :: rest) h index).2.1 = rest ∨
        ∃ a b, (plua_next env (k :: rest) h index).2.1 = b :: a :: rest)) ∧
    ((plua_next env (k :: rest) h index).1 ≠ 0 →
      ∃ e, (plua_next env (k :: rest) h index).2.1 = e :: rest) := by
  simp only [plua_next]
  have hrot : lua_rotate
      (lua_pushvalue (Value.cfun CFunId.sNext :: k :: rest) (lua_absindex (k :: rest) index))
      (-3) (-1) =
      [k, valueAt (Value.cfun CFunId.sNext :: k :: rest) (lua_absindex (k :: rest) index)] ++
        Value.cfun CFunId.sNext :: rest := by
    show lua_rotate
        (valueAt (Value.cfun CFunId.sNext :: k :: rest) (lua_absindex (k :: rest) index) ::
          Value.cfun CFunId.sNext :: k :: rest) (-3) (-1) = _
    rw [lua_rotate_neg3]
    rfl
  rw [hrot]
  rcases lua_pcall_multret_cases env
      [k, valueAt (Value.cfun CFunId.sNext :: k :: rest) (lua_absindex (k :: rest) index)]
      (Value.cfun CFunId.sNext) rest 2 h rfl with ⟨rs, h1, hcv, heq⟩ | ⟨e, h1, heq⟩
  · rw [heq]
    simp only [callValue] at hcv
    rcases runCFun_sNext_results env _ k h rs h1 hcv with rfl | ⟨a, b, rfl⟩
    · norm_num
    · norm_num
  · rw [heq]
    norm_num

theorem shape_pushcclosure (env : Env) (ups rest : List Value) (h : Heap) (f : CFunId) :
    ((plua_pushcclosure env (ups ++ rest) h f ups.length).1 = 0 →
      ∃ c, (plua_pushcclosure env (ups ++ rest) h f ups.length).2.1 = c :: rest) ∧
    ((plua_pushcclosure env (ups ++ rest) h f ups.length).1 ≠ 0 →
      ∃ e, (plua_pushcclosure env (ups ++ rest) h f ups.length).2.1 = e :: rest) := by
  have hred : plua_pushcclosure env (ups ++ rest) h f ups.length =
      lua_pcall env ((Value.cfun f :: ups) ++ Value.cfun CFunId.sPushcclosure :: rest)
        (ups.length + 1) 1 h := by
    unfold plua_pushcclosure
    rw [lua_insert_top]
    rfl
  rw [hred]
  exact pcall_shape1 env (Value.cfun f :: ups) (Value.cfun CFunId.sPushcclosure) rest
    (ups.length + 1) h (by simp)

theorem shape_pushlstring (env : Env) (st : List Value) (h : Heap) (s : Nat) (len : Nat) :
    ((plua_pushlstring env st h s len).1 = 0 →
      ∃ v, (plua_pushlstring env st h s len).2.1 = v :: st) ∧
    ((plua_pushlstring env st h s len).1 ≠ 0 →
      ∃ e, (plua_pushlstring env st h s len).2.1 = e :: st) :=
  pcall_shape1 env [Value.integer (len : Int), Value.lightud s]
    (Value.cfun CFunId.sPushlstring) st 2 h rfl

theorem shape_pushstring (env : Env) (st : List Value) (h : Heap) (s : Nat) :
    ((plua_pushstring env st h s).1 = 0 → ∃ v, (plua_pushstring env st h s).2.1 = v :: st) ∧
    ((plua_pushstring env st h s).1 ≠ 0 → ∃ e, (plua_pushstring env st h s).2.1 = e :: st) :=
  pcall_shape1 env [Value.lightud s] (Value.cfun CFunId.sPushstring) st 1 h rfl

theorem shape_rawset (env : Env) (v k : Value) (rest : List Value) (h : Heap) (index : Int) :
    ((plua_rawset env (v :: k :: rest) h index).1 = 0 →
      (plua_rawset env (v :: k :: rest) h index).2.1 = rest) ∧
    ((plua_rawset env (v :: k :: rest) h index).1 ≠ 0 →
      ∃ e, (plua_rawset env (v :: k :: rest) h index).2.1 = e :: rest) := by
  have hred : plua_rawset env (v :: k :: rest) h index =
      lua_pcall env
        ([v, k, valueAt (v :: k :: rest) index] ++ Value.cfun CFunId.sRawset :: rest) 3 0 h := by
    show lua_pcall env
        (lua_insert
          (Value.cfun CFunId.sRawset ::
            lua_insert (valueAt (v :: k :: rest) index :: v :: k :: rest) (-3)) (-4)) 3 0 h = _
    rw [lua_insert_neg3, lua_insert_neg4]
    rfl
  rw [hred]
  exact pcall_shape0 env [v, k, valueAt (v :: k :: rest) index]
    (Value.cfun CFunId.sRawset) rest 3 h rfl

theorem shape_settable (env : Env) (v k : Value) (rest : List Value) (h : Heap) (index : Int) :
    ((plua_settable env (v :: k :: rest) h index).1 = 0 →
      (plua_settable env (v :: k :: rest) h index).2.1 = rest) ∧
    ((plua_settable env (v :: k :: rest) h index).1 ≠ 0 →
      ∃ e, (plua_settable env (v :: k :: rest) h index).2.1 = e :: rest) := by
  have hred : plua_settable env (v :: k :: rest) h index =
      lua_pcall env
        ([v, k, valueAt (v :: k :: rest) index] ++ Value.cfun CFunId.sSettable :: rest) 3 0 h := by
    show lua_pcall env
        (lua_insert
          (Value.cfun CFunId.sSettable ::
            lua_insert (valueAt (v :: k :: rest) index :: v :: k :: rest) (-3)) (-4)) 3 0 h = _
    rw [lua_insert_neg3, lua_insert_neg4]
    rfl
  rw [hred]
  exact pcall_shape0 env [v, k, valueAt (v :: k :: rest) index]
    (Value.cfun CFunId.sSettable) rest 3 h rfl

theorem shape_tostring (env : Env) (st : List Value) (h : Heap) (index : Int) (addr : Nat) :
    ((plua_tostring env st h index addr).1 = 0 →
      ∃ c, (plua_tostring env st h index addr).2.1 =
        st.set (st.length - (lua_absindex st index).toNat) c) ∧
    ((plua_tostring env st h index addr).1 ≠ 0 →
      ∃ e, (plua_tostring env st h index addr).2.1 = e :: st) := by
  simp only [plua_tostring]
  have hs1 : (runSteps (tostringSteps addr) st index).1 =
      Value.lightud addr ::
        valueAt (Value.cfun CFunId.sTostring :: st) (lua_absindex st index) ::
          Value.cfun CFunId.sTostring :: st := rfl
  have hs2 : (runSteps (tostringSteps addr) st index).2 = lua_absindex st index := rfl
  rw [hs1, hs2]
  rcases lua_pcall_cases env
      [Value.lightud addr, valueAt (Value.cfun CFunId.sTostring :: st) (lua_absindex st index)]
      (Value.cfun CFunId.sTostring) st 2 1 h rfl (by omega) with
    ⟨rs, h1, hlen, heq⟩ | ⟨e, h1, heq⟩
  · have hlen1 : rs.length = 1 := by omega
    rcases List.length_eq_one.mp hlen1 with ⟨c, rfl⟩
    simp only [List.cons_append, List.nil_append] at heq
    rw [heq]
    norm_num
    exact ⟨c, rfl⟩
  · simp only [List.cons_append, List.nil_append] at heq
    rw [heq]
    norm_num

/-! Concrete fixtures used by the witness theorems. -/

/-- Concrete environment: every callback returns 0 results, host memory
reads give fixed strings. -/
def env0 : Env :=
  { cbs := fun _ stk h => (0, stk, h), cbytes := fun _ _ => "bytes", cstr := fun _ => "cs" }

/-- Empty concrete heap. -/
def h0 : Heap := { tables := [], closures := [], nextId := 0, mem := [], oracle := [] }

/-- Concrete heap with one two-entry table (id 5). -/
def hT : Heap :=
  { tables := [(5, [(Value.integer 7, Value.integer 9), (Value.str "a", Value.boolean true)])],
    closures := [], nextId := 6, mem := [], oracle := [] }

/-- C1: every protected-library operation (table creation, length, indexed
get, generic get, thread creation, userdata creation, iteration step,
closure creation, string pushes, raw-set, generic set, string coercion)
returns an integer status; on success the stack holds exactly the
operation's declared result values above the caller's untouched region
(for the coercion, the declared effect is the in-place replacement of the
addressed slot), and on failure it holds exactly one pushed error value
with all operands consumed. -/
theorem claim_C1 :
    (∀ (env : Env) (st : List Value) (h : Heap),
      ((plua_newtable env st h).1 = 0 → ∃ v, (plua_newtable env st h).2.1 = v :: st) ∧
      ((plua_newtable env st h).1 ≠ 0 → ∃ e, (plua_newtable env st h).2.1 = e :: st)) ∧
    (∀ (env : Env) (st : List Value) (h : Heap) (index : Int),
      ((pluaL_len env st h index).1 = 0 → (pluaL_len env st h index).2.1 = st) ∧
      ((pluaL_len env st h index).1 ≠ 0 → ∃ e, (pluaL_len env st h index).2.1 = e :: st)) ∧
    (∀ (env : Env) (st : List Value) (h : Heap) (index : Int) (i : Int),
      ((plua_geti env st h index i).1 = 0 → ∃ v, (plua_geti env st h index i).2.1 = v :: st) ∧
      ((plua_geti env st h index i).1 ≠ 0 → ∃ e, (plua_geti env st h index i).2.1 = e :: st)) ∧
    (∀ (env : Env) (k : Value) (rest : List Value) (h : Heap) (index : Int),
      ((plua_gettable env (k :: rest) h index).1 = 0 →
        ∃ v, (plua_gettable env (k :: rest) h index).2.1 = v :: rest) ∧
      ((plua_gettable env (k :: rest) h index).1 ≠ 0 →
        ∃ e, (plua_gettable env (k :: rest) h index).2.1 = e :: rest)) ∧
    (∀ (env : Env) (st : List Value) (h : Heap),
      ((plua_newthread env st h).1 = 0 → ∃ v, (plua_newthread env st h).2.1 = v :: st) ∧
      ((plua_newthread env st h).1 ≠ 0 → ∃ e, (plua_newthread env st h).2.1 = e :: st)) ∧
    (∀ (env : Env) (st : List Value) (h : Heap) (size : Int),
      ((plua_newuserdata env st h size).1 = 0 →
        ∃ v, (plua_newuserdata env st h size).2.1 = v :: st) ∧
      ((plua_newuserdata env st h size).1 ≠ 0 →
        ∃ e, (plua_newuserdata env st h size).2.1 = e :: st)) ∧
    (∀ (env : Env) (k : Value) (rest : List Value) (h : Heap) (index : Int),
      ((plua_next env (k :: rest) h index).1 = 0 →
        ((plua_next env (k :: rest) h index).2.1 = rest ∨
          ∃ a b, (plua_next env (k :: rest) h index).2.1 = b :: a :: rest)) ∧
      ((plua_next env (k :: rest) h index).1 ≠ 0 →
        ∃ e, (plua_next env (k :: rest) h index).2.1 = e :: rest)) ∧
    (∀ (env : Env) (ups rest : List Value) (h : Heap) (f : CFunId),
      ((plua_pushcclosure env (ups ++ rest) h f ups.length).1 = 0 →
        ∃ c, (plua_pushcclosure env (ups ++ rest) h f ups.length).2.1 = c :: rest) ∧
      ((plua_pushcclosure env (ups ++ rest) h f ups.length).1 ≠ 0 →
        ∃ e, (plua_pushcclosure env (ups ++ rest) h f ups.length).2.1 = e :: rest)) ∧
    (∀ (env : Env) (st : List Value) (h : Heap) (s : Nat) (len : Nat),
      ((plua_pushlstring env st h s len).1 = 0 →
        ∃ v, (plua_pushlstring env st h s len).2.1 = v :: st) ∧
      ((plua_pushlstring env st h s len).1 ≠ 0 →
        ∃ e, (plua_pushlstring env st h s len).2.1 = e :: st)) ∧
    (∀ (env : Env) (st : List Value) (h : Heap) (s : Nat),
      ((plua_pushstring env st h s).1 = 0 → ∃ v, (plua_pushstring env st h s).2.1 = v :: st) ∧
      ((plua_pushstring env st h s).1 ≠ 0 → ∃ e, (plua_pushstring env st h s).2.1 = e :: st)) ∧
    (∀ (env : Env) (v k : Value) (rest : List Value) (h : Heap) (index : Int),
      ((plua_rawset env (v :: k :: rest) h index).1 = 0 →
        (plua_rawset env (v :: k :: rest) h index).2.1 = rest) ∧
      ((plua_rawset env (v :: k :: rest) h index).1 ≠ 0 →
        ∃ e, (plua_rawset env (v :: k :: rest) h index).2.1 = e :: rest)) ∧
    (∀ (env : Env) (v k : Value) (rest : List Value) (h : Heap) (index : Int),
      ((plua_settable env (v :: k :: rest) h index).1 = 0 →
        (plua_settable env (v :: k :: rest) h index).2.1 = rest) ∧
      ((plua_settable env (v :: k :: rest) h index).1 ≠ 0 →
        ∃ e, (plua_settable env (v :: k :: rest) h index).2.1 = e :: rest)) ∧
    (∀ (env : Env) (st : List Value) (h : Heap) (index : Int) (addr : Nat),
      ((plua_tostring env st h index addr).1 = 0 →
        ∃ c, (plua_tostring env st h index addr).2.1 =
          st.set (st.length - (lua_absindex st index).toNat) c) ∧
      ((plua_tostring env st h index addr).1 ≠ 0 →
        ∃ e, (plua_tostring env st h index addr).2.1 = e :: st)) :=
  ⟨shape_newtable, shape_len, shape_geti, shape_gettable, shape_newthread, shape_newuserdata,
   shape_next, shape_pushcclosure, shape_pushlstring, shape_pushstring, shape_rawset,
   shape_settable, shape_tostring⟩

/-- Witness for C1: a successful generic get pushes exactly one result
over the untouched region, and a failing one (indexing nil) leaves
exactly one error value. -/
theorem claim_C1_witness :
    (∃ v, (plua_gettable env0 (Value.integer 7 :: [Value.table 5]) hT (-2)).2.1 =
      v :: [Value.table 5]) ∧
    (∃ e, (plua_gettable env0 (Value.integer 7 :: [Value.nil]) hT (-2)).2.1 =
      e :: [Value.nil]) :=
  ⟨(claim_C1.2.2.2.1 env0 (Value.integer 7) [Value.table 5] hT (-2)).1 (by decide),
   (claim_C1.2.2.2.1 env0 (Value.integer 7) [Value.nil] hT (-2)).2 (by decide)⟩

/-! Trampoline lemmas and claims. -/

theorem valueAt_tip (x : Value) (l : List Value) : valueAt (x :: l) (-1) = x := by
  have hc1 : ¬ (0 < (-1 : Int) ∧ (-1 : Int) ≤ (((x :: l).length : Nat) : Int)) := by
    intro hcontra
    omega
  have hc2 : -((((x :: l).length : Nat) : Int)) ≤ (-1 : Int) ∧ (-1 : Int) < 0 := by
    rw [List.length_cons]
    constructor <;> omega
  unfold valueAt
  rw [if_neg hc1, if_pos hc2]
  norm_num

/-- Dispatch of a call on a closure value present in the heap. -/
theorem callValue_closure (env : Env) (cid : Nat) (g : CFunId) (ups args : List Value)
    (h : Heap) (hcl : lookupClosure h cid = some (g, ups)) :
    callValue env (Value.closure cid) args h = runCFun env g ups args h := by
  show (match lookupClosure h cid with
        | some gu => runCFun env gu.1 gu.2 args h
        | none => CallResult.err (Value.str "attempt to call an invalid closure") h) =
    runCFun env g ups args h
  rw [hcl]

/-- Unfolding of a protected call to the dispatch on the called value. -/
theorem lua_pcall_callValue (env : Env) (args : List Value) (f : Value) (rest : List Value)
    (nargs : Nat) (nres : Int) (h : Heap) (hargs : args.length = nargs) :
    lua_pcall env (args ++ f :: rest) nargs nres h =
      (match callValue env f args h with
       | CallResult.ok rs h1 => (0, adjustResults nres rs ++ rest, h1)
       | CallResult.err e h1 => (2, e :: rest, h1)) := by
  subst hargs
  unfold lua_pcall
  simp only [List.take_left, List.drop_left]

/-- A protected call of a trampoline closure whose body raises fails with
exactly the raised error value. -/
theorem pcall_rclosure_raise (env : Env) (cid a : Nat) (ups args rest : List Value)
    (h : Heap) (nres : Int) (e : Value) (h1 : Heap)
    (hcl : lookupClosure h cid = some (CFunId.sCallRust, Value.lightud a :: ups))
    (hrb : runBody env CFunId.sCallRust (Value.lightud a :: ups) args h = CRet.raise e h1) :
    lua_pcall env (args ++ Value.closure cid :: rest) args.length nres h = (2, e :: rest, h1) := by
  rw [lua_pcall_callValue env args _ rest args.length nres h rfl,
      callValue_closure env cid CFunId.sCallRust (Value.lightud a :: ups) args h hcl]
  unfold runCFun
  rw [hrb]

/-- A protected multi-result call of a trampoline closure whose body
returns count `n ≥ 0` succeeds with the top `n` values of the left-behind
frame as results. -/
theorem pcall_rclosure_ret (env : Env) (cid a : Nat) (ups args rest : List Value)
    (h : Heap) (n : Int) (st1 : List Value) (h1 : Heap)
    (hcl : lookupClosure h cid = some (CFunId.sCallRust, Value.lightud a :: ups))
    (hrb : runBody env CFunId.sCallRust (Value.lightud a :: ups) args h = CRet.ret n st1 h1)
    (hn : 0 ≤ n) :
    lua_pcall env (args ++ Value.closure cid :: rest) args.length (-1) h =
      (0, st1.take n.toNat ++ rest, h1) := by
  rw [lua_pcall_callValue env args _ rest args.length (-1) h rfl,
      callValue_closure env cid CFunId.sCallRust (Value.lightud a :: ups) args h hcl]
  unfold runCFun
  rw [hrb]
  show (0, adjustResults (-1) (if n < 0 then st1 else List.take n.toNat st1) ++ rest, h1) =
    (0, List.take n.toNat st1 ++ rest, h1)
  rw [if_neg (show ¬ n < 0 by omega), adjustResults_multret]

/-- C3: a nonnegative integer returned by a host callback is treated as a
literal count of already-pushed results and returned to the engine as-is,
with no raise and no further change to the frame stack or heap. -/
theorem claim_C3 (env : Env) (a : Nat) (ups stk st1 : List Value) (h h1 : Heap) (n : Int)
    (hcb : env.cbs a stk h = (n, st1, h1)) (hn : 0 ≤ n) :
    runBody env CFunId.sCallRust (Value.lightud a :: ups) stk h = CRet.ret n st1 h1 := by
  simp only [runBody]
  have hud : lua_touserdata ((Value.lightud a :: ups).headD Value.nil) = a := rfl
  rw [hud, hcb]
  rw [if_neg (by simp; omega), if_neg (by simp; omega), if_neg (by simp; omega)]

/-- Callback returning three pushed results: the trampoline returns 3 and
leaves the callback's stack untouched. -/
def env3 : Env :=
  { env0 with
    cbs := fun _ stk h =>
      (3, Value.integer 30 :: Value.integer 20 :: Value.integer 10 :: stk, h) }

theorem claim_C3_witness :
    runBody env3 CFunId.sCallRust [Value.lightud 7] [] h0 =
      CRet.ret 3 [Value.integer 30, Value.integer 20, Value.integer 10] h0 :=
  claim_C3 env3 7 [] [] [Value.integer 30, Value.integer 20, Value.integer 10] h0 h0 3 rfl
    (by omega)

/-- C10: a negative callback result that is none of the three reserved
sentinels is not rejected or converted, but returned to the engine
unchanged as if it were a result count. -/
theorem claim_C10 (env : Env) (a : Nat) (ups stk st1 : List Value) (h h1 : Heap) (n : Int)
    (hcb : env.cbs a stk h = (n, st1, h1)) (hneg : n < 0)
    (hm1 : n ≠ -1) (hm2 : n ≠ -2) (hm3 : n ≠ -3) :
    runBody env CFunId.sCallRust (Value.lightud a :: ups) stk h = CRet.ret n st1 h1 := by
  simp only [runBody]
  have hud : lua_touserdata ((Value.lightud a :: ups).headD Value.nil) = a := rfl
  rw [hud, hcb]
  rw [if_neg (by simp; omega), if_neg (by simp; omega), if_neg (by simp; omega)]

/-- Callback returning the non-sentinel negative value -4. -/
def envM4 : Env := { env0 with cbs := fun _ stk h => (-4, stk, h) }

theorem claim_C10_witness :
    runBody envM4 CFunId.sCallRust [Value.lightud 7] [Value.nil] h0 =
      CRet.ret (-4) [Value.nil] h0 :=
  claim_C10 envM4 7 [] [Value.nil] [Value.nil] h0 h0 (-4) rfl (by omega) (by omega) (by omega)
    (by omega)

/-- C4: a callback returning the stack-overflow marker (-2) makes the
trampoline raise the fixed "stack overflow in rust callback" error; this
is the only error the trampoline itself manufactures (every other raise
re-uses the value the callback left on top); and the enclosing protected
call fails with that message, which contains "stack overflow". -/
theorem claim_C4 (env : Env) (a : Nat) (ups stk st1 : List Value) (h h1 : Heap)
    (hcb : env.cbs a stk h = (-2, st1, h1)) :
    runBody env CFunId.sCallRust (Value.lightud a :: ups) stk h =
      CRet.raise (Value.str "stack overflow in rust callback") h1 ∧
    (∃ pre post, "stack overflow in rust callback" = pre ++ "stack overflow" ++ post) ∧
    (∀ (stk2 : List Value) (h2 : Heap) (e : Value) (h3 : Heap),
      runBody env CFunId.sCallRust (Value.lightud a :: ups) stk2 h2 = CRet.raise e h3 →
      ((env.cbs a stk2 h2).1 = -2 ∧ e = Value.str "stack overflow in rust callback") ∨
      ((env.cbs a stk2 h2).1 = -3 ∧ e = valueAt (env.cbs a stk2 h2).2.1 (-1))) ∧
    (∀ (cid : Nat) (rest : List Value) (nres : Int),
      lookupClosure h cid = some (CFunId.sCallRust, Value.lightud a :: ups) →
      lua_pcall env (stk ++ Value.closure cid :: rest) stk.length nres h =
        (2, Value.str "stack overflow in rust callback" :: rest, h1)) := by
  have hud : lua_touserdata ((Value.lightud a :: ups).headD Value.nil) = a := rfl
  have hraise : runBody env CFunId.sCallRust (Value.lightud a :: ups) stk h =
      CRet.raise (Value.str "stack overflow in rust callback") h1 := by
    simp only [runBody]
    rw [hud, hcb]
    rw [if_neg (by simp), if_pos (by simp)]
  refine ⟨hraise, ⟨"", " in rust callback", rfl⟩, ?_, ?_⟩
  · intro stk2 h2 e h3 hr
    simp only [runBody] at hr
    rw [hud] at hr
    rcases hq : env.cbs a stk2 h2 with ⟨m, stm, hm⟩
    rw [hq] at hr
    by_cases hm1 : m = -1
    · subst hm1
      rw [if_pos (by simp)] at hr
      exact absurd hr (by simp)
    · rw [if_neg (by simp [hm1])] at hr
      by_cases hm2 : m = -2
      · subst hm2
        rw [if_pos (by simp)] at hr
        cases hr
        exact Or.inl ⟨rfl, rfl⟩
      · rw [if_neg (by simp [hm2])] at hr
        by_cases hm3 : m = -3
        · subst hm3
          rw [if_pos (by simp)] at hr
          cases hr
          exact Or.inr ⟨rfl, rfl⟩
        · rw [if_neg (by simp [hm3])] at hr
          exact absurd hr (by simp)
  · intro cid rest nres hcl
    exact pcall_rclosure_raise env cid a ups stk rest h nres _ h1 hcl hraise

/-- Callback returning the stack-overflow marker. -/
def envSo : Env := { env0 with cbs := fun _ stk h => (-2, stk, h) }

/-- Concrete heap holding a trampoline closure (id 0, callback address 7,
no further upvalues). -/
def hC : Heap := { h0 with closures := [(0, CFunId.sCallRust, [Value.lightud 7])] }

theorem claim_C4_witness :
    runBody envSo CFunId.sCallRust [Value.lightud 7] [] hC =
      CRet.raise (Value.str "stack overflow in rust callback") hC ∧
    lua_pcall envSo (([] : List Value) ++ Value.closure 0 :: []) ([] : List Value).length
        (-1) hC = (2, Value.str "stack overflow in rust callback" :: [], hC) :=
  ⟨(claim_C4 envSo 7 [] [] [] hC hC rfl).1,
   (claim_C4 envSo 7 [] [] [] hC hC rfl).2.2.2 0 [] (-1) rfl⟩

/-- C5: a callback returning the rethrow marker (-3) after leaving an
error value on top of its stack makes the trampoline raise exactly that
value, unmodified, and the invoking protected call fails with exactly
that value on the stack. -/
theorem claim_C5 (env : Env) (a : Nat) (ups stk tail : List Value) (e : Value) (h h1 : Heap)
    (hcb : env.cbs a stk h = (-3, e :: tail, h1)) :
    runBody env CFunId.sCallRust (Value.lightud a :: ups) stk h = CRet.raise e h1 ∧
    (∀ (cid : Nat) (rest : List Value) (nres : Int),
      lookupClosure h cid = some (CFunId.sCallRust, Value.lightud a :: ups) →
      lua_pcall env (stk ++ Value.closure cid :: rest) stk.length nres h =
        (2, e :: rest, h1)) := by
  have hud : lua_touserdata ((Value.lightud a :: ups).headD Value.nil) = a := rfl
  have hraise : runBody env CFunId.sCallRust (Value.lightud a :: ups) stk h =
      CRet.raise e h1 := by
    simp only [runBody]
    rw [hud, hcb]
    rw [if_neg (by simp), if_neg (by simp), if_pos (by simp)]
    simp only [valueAt_tip]
  refine ⟨hraise, ?_⟩
  intro cid rest nres hcl
  exact pcall_rclosure_raise env cid a ups stk rest h nres e h1 hcl hraise

/-- Callback returning the rethrow marker after pushing a custom error. -/
def envRe : Env := { env0 with cbs := fun _ stk h => (-3, Value.str "boom" :: stk, h) }

theorem claim_C5_witness :
    runBody envRe CFunId.sCallRust [Value.lightud 7] [] hC =
      CRet.raise (Value.str "boom") hC ∧
    lua_pcall envRe (([] : List Value) ++ Value.closure 0 :: []) ([] : List Value).length
        (-1) hC = (2, Value.str "boom" :: [], hC) :=
  ⟨(claim_C5 envRe 7 [] [] [] (Value.str "boom") hC hC rfl).1,
   (claim_C5 envRe 7 [] [] [] (Value.str "boom") hC hC rfl).2 0 [] (-1) rfl⟩

/-- C2 counterexample: a concrete successful userdata creation leaves the
created value on the stack, so the stack height on return is the entry
height plus one, not the entry height as claimed. -/
theorem claim_C2_counterexample :
    (plua_newuserdata env0 [] h0 16).1 = 0 ∧
    (plua_newuserdata env0 [] h0 16).2.1.length = ([] : List Value).length + 1 := by
  decide

/-- C2 (amended): on success, plua_newuserdata writes the native pointer
extracted from the single returned value into its output parameter, and
leaves the created value on the stack, so the stack height on return is
the entry height plus one. -/
theorem claim_C2_amended (env : Env) (st : List Value) (h : Heap) (size : Int)
    (hok : (plua_newuserdata env st h size).1 = 0) :
    ∃ v, (plua_newuserdata env st h size).2.1 = v :: st ∧
      (plua_newuserdata env st h size).2.2.2 = some (lua_touserdata v) ∧
      (plua_newuserdata env st h size).2.1.length = st.length + 1 := by
  rcases lua_pcall_cases env [Value.integer size] (Value.cfun CFunId.sNewuserdata) st 1 1 h
      rfl (by omega) with ⟨rs, h1, hlen, heq⟩ | ⟨e, h1, heq⟩
  · have hlen1 : rs.length = 1 := by omega
    rcases List.length_eq_one.mp hlen1 with ⟨v, rfl⟩
    simp only [List.cons_append, List.nil_append] at heq
    refine ⟨v, ?_⟩
    simp only [plua_newuserdata]
    rw [heq]
    norm_num [valueAt_tip]
  · exfalso
    have h2 : (plua_newuserdata env st h size).1 = 2 := by
      simp only [plua_newuserdata]
      simp only [List.cons_append, List.nil_append] at heq
      rw [heq]
      norm_num
    rw [h2] at hok
    exact absurd hok (by norm_num)

theorem claim_C2_amended_witness :
    ∃ v, (plua_newuserdata env0 [] h0 16).2.1 = v :: [] ∧
      (plua_newuserdata env0 [] h0 16).2.2.2 = some (lua_touserdata v) ∧
      (plua_newuserdata env0 [] h0 16).2.1.length = ([] : List Value).length + 1 :=
  claim_C2_amended env0 [] h0 16 (by decide)

/-- Whether a wrapper's set-up sequence performs index normalization
before its first push. -/
def normalizesBeforePush (steps : List Step) : Prop :=
  Step.absindexArg ∈ steps.takeWhile (fun s => !stepIsPush s)

instance (steps : List Step) : Decidable (normalizesBeforePush steps) := by
  unfold normalizesBeforePush
  infer_instance

/-- C8 counterexample: the raw-set and generic-set wrappers never convert
their caller-supplied index to absolute form, so the claim fails for two
of the six listed operations. -/
theorem claim_C8_counterexample :
    ¬ (normalizesBeforePush lenSteps ∧ normalizesBeforePush (getiSteps 0) ∧
       normalizesBeforePush gettableSteps ∧ normalizesBeforePush rawsetSteps ∧
       normalizesBeforePush settableSteps ∧ normalizesBeforePush (tostringSteps 0)) := by
  decide

/-- The retrieved value is unchanged if a valid relative index is replaced
by its absolute form first. -/
theorem valueAt_absindex (st : List Value) (i : Int)
    (hsmall : st.length < 1001000)
    (hrel : -(st.length : Int) ≤ i ∧ i < 0 ∨ 0 < i) :
    valueAt st (lua_absindex st i) = valueAt st i := by
  rcases hrel with ⟨hlo, hhi⟩ | hpos
  · have habs : lua_absindex st i = (st.length : Int) + i + 1 := by
      unfold lua_absindex
      rw [if_neg (by intro hco; omega)]
    have hcL : 0 < (st.length : Int) + i + 1 ∧ (st.length : Int) + i + 1 ≤ (st.length : Int) := by
      constructor <;> omega
    have hL : valueAt st ((st.length : Int) + i + 1) =
        (st.get? (st.length - ((st.length : Int) + i + 1).toNat)).getD Value.nil := by
      unfold valueAt
      rw [if_pos hcL]
    have hcR1 : ¬ (0 < i ∧ i ≤ (st.length : Int)) := by
      intro hco
      omega
    have hcR2 : -(st.length : Int) ≤ i ∧ i < 0 := ⟨hlo, hhi⟩
    have hR : valueAt st i = (st.get? ((-i).toNat - 1)).getD Value.nil := by
      unfold valueAt
      rw [if_neg hcR1, if_pos hcR2]
    rw [habs, hL, hR]
    have hidx : st.length - ((st.length : Int) + i + 1).toNat = (-i).toNat - 1 := by omega
    rw [hidx]
  · have habs : lua_absindex st i = i := by
      unfold lua_absindex
      rw [if_pos (Or.inl hpos)]
    rw [habs]

/-- plua_rawset consumes its index argument only before any push, so a
valid relative index behaves exactly like its absolute form. -/
theorem plua_rawset_index_eq (env : Env) (st : List Value) (h : Heap) (i : Int)
    (hsmall : st.length < 1001000)
    (hrel : -(st.length : Int) ≤ i ∧ i < 0 ∨ 0 < i) :
    plua_rawset env st h i = plua_rawset env st h (lua_absindex st i) := by
  have hv := valueAt_absindex st i hsmall hrel
  show lua_pcall env
      (lua_insert (Value.cfun CFunId.sRawset :: lua_insert (valueAt st i :: st) (-3)) (-4))
      3 0 h =
    lua_pcall env
      (lua_insert
        (Value.cfun CFunId.sRawset :: lua_insert (valueAt st (lua_absindex st i) :: st) (-3))
        (-4)) 3 0 h
  rw [hv]

/-- Same as `plua_rawset_index_eq`, for the generic set wrapper. -/
theorem plua_settable_index_eq (env : Env) (st : List Value) (h : Heap) (i : Int)
    (hsmall : st.length < 1001000)
    (hrel : -(st.length : Int) ≤ i ∧ i < 0 ∨ 0 < i) :
    plua_settable env st h i = plua_settable env st h (lua_absindex st i) := by
  have hv := valueAt_absindex st i hsmall hrel
  show lua_pcall env
      (lua_insert (Value.cfun CFunId.sSettable :: lua_insert (valueAt st i :: st) (-3)) (-4))
      3 0 h =
    lua_pcall env
      (lua_insert
        (Value.cfun CFunId.sSettable :: lua_insert (valueAt st (lua_absindex st i) :: st) (-3))
        (-4)) 3 0 h
  rw [hv]

/-- C8 (amended): of the six index-taking wrappers, length, indexed get,
generic get and string coercion convert the caller's index to absolute
form before any push; raw-set and generic set perform no conversion, but
they consume the index before any push, so a valid relative index still
denotes the same stack slot as its absolute form. -/
theorem claim_C8_amended (env : Env) (st : List Value) (h : Heap) (index : Int)
    (i : Int) (addr : Nat) (hsmall : st.length < 1001000)
    (hrel : -(st.length : Int) ≤ index ∧ index < 0 ∨ 0 < index) :
    normalizesBeforePush lenSteps ∧ normalizesBeforePush (getiSteps i) ∧
    normalizesBeforePush gettableSteps ∧ normalizesBeforePush (tostringSteps addr) ∧
    plua_rawset env st h index = plua_rawset env st h (lua_absindex st index) ∧
    plua_settable env st h index = plua_settable env st h (lua_absindex st index) :=
  ⟨List.Mem.head _, List.Mem.head _, List.Mem.head _, List.Mem.head _,
   plua_rawset_index_eq env st h index hsmall hrel,
   plua_settable_index_eq env st h index hsmall hrel⟩

theorem claim_C8_amended_witness :
    normalizesBeforePush lenSteps ∧ normalizesBeforePush (getiSteps 4) ∧
    normalizesBeforePush gettableSteps ∧ normalizesBeforePush (tostringSteps 9) ∧
    plua_rawset env0 [Value.integer 1, Value.integer 2, Value.table 5] hT (-3) =
      plua_rawset env0 [Value.integer 1, Value.integer 2, Value.table 5] hT
        (lua_absindex [Value.integer 1, Value.integer 2, Value.table 5] (-3)) ∧
    plua_settable env0 [Value.integer 1, Value.integer 2, Value.table 5] hT (-3) =
      plua_settable env0 [Value.integer 1, Value.integer 2, Value.table 5] hT
        (lua_absindex [Value.integer 1, Value.integer 2, Value.table 5] (-3)) :=
  claim_C8_amended env0 [Value.integer 1, Value.integer 2, Value.table 5] hT (-3) 4 9
    (by decide) (by decide)

/-! Output-parameter lemmas (claim C9). -/

theorem allocStep_mem (h : Heap) : (allocStep h).2.mem = h.mem := by
  unfold allocStep
  cases h.oracle <;> rfl

theorem engineTostring_mem (h : Heap) (v : Value) :
    (∀ cv h1, engineTostring h v = ERes.ok cv h1 → h1.mem = h.mem) ∧
    (∀ e h1, engineTostring h v = ERes.err e h1 → h1.mem = h.mem) := by
  cases v with
  | integer n =>
    rcases ho : h.oracle with _ | ⟨b, r⟩
    · have hred : engineTostring h (Value.integer n) =
          ERes.ok (some (toString n), Value.str (toString n)) h := by
        unfold engineTostring allocStep
        rw [ho]
        rfl
      constructor
      · intro cv h1 hk
        rw [hred] at hk
        injection hk with h3 h4
        rw [← h4]
      · intro e h1 hk
        rw [hred] at hk
        simp at hk
    · cases b
      · have hred : engineTostring h (Value.integer n) =
            ERes.err memError { h with oracle := r } := by
          unfold engineTostring allocStep
          rw [ho]
          rfl
        constructor
        · intro cv h1 hk
          rw [hred] at hk
          simp at hk
        · intro e h1 hk
          rw [hred] at hk
          injection hk with h3 h4
          rw [← h4]
      · have hred : engineTostring h (Value.integer n) =
            ERes.ok (some (toString n), Value.str (toString n)) { h with oracle := r } := by
          unfold engineTostring allocStep
          rw [ho]
          rfl
        constructor
        · intro cv h1 hk
          rw [hred] at hk
          injection hk with h3 h4
          rw [← h4]
        · intro e h1 hk
          rw [hred] at hk
          simp at hk
  | str s =>
    constructor
    · intro cv h1 hk
      rw [show engineTostring h (Value.str s) = ERes.ok (some s, Value.str s) h from rfl] at hk
      injection hk with h3 h4
      rw [← h4]
    · intro e h1 hk
      simp [engineTostring] at hk
  | nil =>
    constructor
    · intro cv h1 hk
      rw [show engineTostring h Value.nil = ERes.ok (none, Value.nil) h from rfl] at hk
      injection hk with h3 h4
      rw [← h4]
    · intro e h1 hk
      simp [engineTostring] at hk
  | boolean bb =>
    constructor
    · intro cv h1 hk
      rw [show engineTostring h (Value.boolean bb) = ERes.ok (none, Value.boolean bb) h from
        rfl] at hk
      injection hk with h3 h4
      rw [← h4]
    · intro e h1 hk
      simp [engineTostring] at hk
  | lightud a =>
    constructor
    · intro cv h1 hk
      rw [show engineTostring h (Value.lightud a) = ERes.ok (none, Value.lightud a) h from
        rfl] at hk
      injection hk with h3 h4
      rw [← h4]
    · intro e h1 hk
      simp [engineTostring] at hk
  | table i =>
    constructor
    · intro cv h1 hk
      rw [show engineTostring h (Value.table i) = ERes.ok (none, Value.table i) h from rfl] at hk
      injection hk with h3 h4
      rw [← h4]
    · intro e h1 hk
      simp [engineTostring] at hk
  | thread i =>
    constructor
    · intro cv h1 hk
      rw [show engineTostring h (Value.thread i) = ERes.ok (none, Value.thread i) h from
        rfl] at hk
      injection hk with h3 h4
      rw [← h4]
    · intro e h1 hk
      simp [engineTostring] at hk
  | userdata a =>
    constructor
    · intro cv h1 hk
      rw [show engineTostring h (Value.userdata a) = ERes.ok (none, Value.userdata a) h from
        rfl] at hk
      injection hk with h3 h4
      rw [← h4]
    · intro e h1 hk
      simp [engineTostring] at hk
  | cfun f =>
    constructor
    · intro cv h1 hk
      rw [show engineTostring h (Value.cfun f) = ERes.ok (none, Value.cfun f) h from rfl] at hk
      injection hk with h3 h4
      rw [← h4]
    · intro e h1 hk
      simp [engineTostring] at hk
  | closure i =>
    constructor
    · intro cv h1 hk
      rw [show engineTostring h (Value.closure i) = ERes.ok (none, Value.closure i) h from
        rfl] at hk
      injection hk with h3 h4
      rw [← h4]
    · intro e h1 hk
      simp [engineTostring] at hk

/-- Outcome of the protected part of the string coercion when the
conversion succeeds: the converted value replaces the copy and the output
cell at `addr` is written. -/
theorem tostring_pcall_ok (env : Env) (st : List Value) (h : Heap) (addr : Nat) (v : Value)
    (cv : Option String × Value) (h1 : Heap)
    (hE : engineTostring h v = ERes.ok cv h1) :
    lua_pcall env (Value.lightud addr :: v :: Value.cfun CFunId.sTostring :: st) 2 1 h =
      (0, cv.2 :: st, memWrite h1 addr cv.1) := by
  show lua_pcall env ([Value.lightud addr, v] ++ Value.cfun CFunId.sTostring :: st) 2 1 h = _
  rw [lua_pcall_callValue env [Value.lightud addr, v] _ st 2 1 h rfl]
  have hrb : runBody env CFunId.sTostring [] [Value.lightud addr, v] h =
      CRet.ret 1 [cv.2] (memWrite h1 addr cv.1) := by
    simp only [runBody]
    rw [show valueAt [Value.lightud addr, v] (-2) = v from rfl, hE]
    rfl
  have hcv : callValue env (Value.cfun CFunId.sTostring) [Value.lightud addr, v] h =
      runCFun env CFunId.sTostring [] [Value.lightud addr, v] h := rfl
  rw [hcv]
  unfold runCFun
  rw [hrb]
  rfl

/-- Outcome of the protected part of the string coercion when the
conversion raises: the error is relayed and no cell is written. -/
theorem tostring_pcall_err (env : Env) (st : List Value) (h : Heap) (addr : Nat) (v : Value)
    (e : Value) (h1 : Heap) (hE : engineTostring h v = ERes.err e h1) :
    lua_pcall env (Value.lightud addr :: v :: Value.cfun CFunId.sTostring :: st) 2 1 h =
      (2, e :: st, h1) := by
  show lua_pcall env ([Value.lightud addr, v] ++ Value.cfun CFunId.sTostring :: st) 2 1 h = _
  rw [lua_pcall_callValue env [Value.lightud addr, v] _ st 2 1 h rfl]
  have hrb : runBody env CFunId.sTostring [] [Value.lightud addr, v] h = CRet.raise e h1 := by
    simp only [runBody]
    rw [show valueAt [Value.lightud addr, v] (-2) = v from rfl, hE]
  have hcv : callValue env (Value.cfun CFunId.sTostring) [Value.lightud addr, v] h =
      runCFun env CFunId.sTostring [] [Value.lightud addr, v] h := rfl
  rw [hcv]
  unfold runCFun
  rw [hrb]

/-- The string-coercion wrapper writes the cell at `addr` exactly when it
succeeds; on failure the host memory is untouched. -/
theorem tostring_mem (env : Env) (st : List Value) (h : Heap) (index : Int) (addr : Nat) :
    ((plua_tostring env st h index addr).1 = 0 →
      ∃ c, (plua_tostring env st h index addr).2.2.mem = memSet h.mem addr c) ∧
    ((plua_tostring env st h index addr).1 ≠ 0 →
      (plua_tostring env st h index addr).2.2.mem = h.mem) := by
  simp only [plua_tostring]
  have hs1 : (runSteps (tostringSteps addr) st index).1 =
      Value.lightud addr ::
        valueAt (Value.cfun CFunId.sTostring :: st) (lua_absindex st index) ::
          Value.cfun CFunId.sTostring :: st := rfl
  rw [hs1]
  rcases hE : engineTostring h (valueAt (Value.cfun CFunId.sTostring :: st) (lua_absindex st index)) with
    ⟨cv, h1⟩ | ⟨e, h1⟩
  · rw [tostring_pcall_ok env st h addr _ cv h1 hE]
    have hm1 : h1.mem = h.mem := (engineTostring_mem h _).1 cv h1 hE
    norm_num
    refine ⟨cv.1, ?_⟩
    show (memWrite h1 addr cv.1).mem = memSet h.mem addr cv.1
    unfold memWrite
    rw [hm1]
  · rw [tostring_pcall_err env st h addr _ e h1 hE]
    have hm1 : h1.mem = h.mem := (engineTostring_mem h _).2 e h1 hE
    norm_num
    exact hm1

theorem out_len (env : Env) (st : List Value) (h : Heap) (index : Int) :
    ((pluaL_len env st h index).1 = 0 → ∃ n, (pluaL_len env st h index).2.2.2 = some n) ∧
    ((pluaL_len env st h index).1 ≠ 0 → (pluaL_len env st h index).2.2.2 = none) := by
  simp only [pluaL_len]
  by_cases hc : (lua_pcall env (runSteps lenSteps st index).1 1 1 h).1 = 0
  · rw [if_pos hc]
    exact ⟨fun _ => ⟨_, rfl⟩, fun hne => absurd hc hne⟩
  · rw [if_neg hc]
    exact ⟨fun hz => absurd hz hc, fun _ => rfl⟩

theorem out_newthread (env : Env) (st : List Value) (h : Heap) :
    ((plua_newthread env st h).1 = 0 → ∃ t, (plua_newthread env st h).2.2.2 = some t) ∧
    ((plua_newthread env st h).1 ≠ 0 → (plua_newthread env st h).2.2.2 = none) := by
  simp only [plua_newthread]
  by_cases hc : (lua_pcall env (Value.cfun CFunId.sNewthread :: st) 0 1 h).1 = 0
  · rw [if_pos hc]
    exact ⟨fun _ => ⟨_, rfl⟩, fun hne => absurd hc hne⟩
  · rw [if_neg hc]
    exact ⟨fun hz => absurd hz hc, fun _ => rfl⟩

theorem out_newuserdata (env : Env) (st : List Value) (h : Heap) (size : Int) :
    ((plua_newuserdata env st h size).1 = 0 →
      ∃ p, (plua_newuserdata env st h size).2.2.2 = some p) ∧
    ((plua_newuserdata env st h size).1 ≠ 0 → (plua_newuserdata env st h size).2.2.2 = none) := by
  simp only [plua_newuserdata]
  by_cases hc : (lua_pcall env
      (Value.integer size :: Value.cfun CFunId.sNewuserdata :: st) 1 1 h).1 = 0
  · rw [if_pos hc]
    exact ⟨fun _ => ⟨_, rfl⟩, fun hne => absurd hc hne⟩
  · rw [if_neg hc]
    exact ⟨fun hz => absurd hz hc, fun _ => rfl⟩

theorem out_next (env : Env) (st : List Value) (h : Heap) (index : Int) :
    ((plua_next env st h index).1 = 0 → ∃ r, (plua_next env st h index).2.2.2 = some r) ∧
    ((plua_next env st h index).1 ≠ 0 → (plua_next env st h index).2.2.2 = none) := by
  simp only [plua_next]
  by_cases hc : (lua_pcall env
      (lua_rotate (lua_pushvalue (Value.cfun CFunId.sNext :: st) (lua_absindex st index))
        (-3) (-1)) 2 (-1) h).1 = 0
  · rw [if_pos hc]
    exact ⟨fun _ => ⟨_, rfl⟩, fun hne => absurd hc hne⟩
  · rw [if_neg hc]
    exact ⟨fun hz => absurd hz hc, fun _ => rfl⟩

/-- C9: for every protected operation with a scalar output parameter
(length query, thread creation, userdata creation, the iteration flag,
and the string-coercion cell), the output is written exactly when the
returned status is success; on failure it is untouched. -/
theorem claim_C9 :
    (∀ (env : Env) (st : List Value) (h : Heap) (index : Int),
      ((pluaL_len env st h index).1 = 0 → ∃ n, (pluaL_len env st h index).2.2.2 = some n) ∧
      ((pluaL_len env st h index).1 ≠ 0 → (pluaL_len env st h index).2.2.2 = none)) ∧
    (∀ (env : Env) (st : List Value) (h : Heap),
      ((plua_newthread env st h).1 = 0 → ∃ t, (plua_newthread env st h).2.2.2 = some t) ∧
      ((plua_newthread env st h).1 ≠ 0 → (plua_newthread env st h).2.2.2 = none)) ∧
    (∀ (env : Env) (st : List Value) (h : Heap) (size : Int),
      ((plua_newuserdata env st h size).1 = 0 →
        ∃ p, (plua_newuserdata env st h size).2.2.2 = some p) ∧
      ((plua_newuserdata env st h size).1 ≠ 0 →
        (plua_newuserdata env st h size).2.2.2 = none)) ∧
    (∀ (env : Env) (st : List Value) (h : Heap) (index : Int),
      ((plua_next env st h index).1 = 0 → ∃ r, (plua_next env st h index).2.2.2 = some r) ∧
      ((plua_next env st h index).1 ≠ 0 → (plua_next env st h index).2.2.2 = none)) ∧
    (∀ (env : Env) (st : List Value) (h : Heap) (index : Int) (addr : Nat),
      ((plua_tostring env st h index addr).1 = 0 →
        ∃ c, (plua_tostring env st h index addr).2.2.mem = memSet h.mem addr c) ∧
      ((plua_tostring env st h index addr).1 ≠ 0 →
        (plua_tostring env st h index addr).2.2.mem = h.mem)) :=
  ⟨out_len, out_newthread, out_newuserdata, out_next, tostring_mem⟩

/-- Witness for C9: a successful length query writes its output, a failing
one (length of nil) leaves it untouched; a failing coercion (integer
conversion under an exhausted allocator) leaves the memory cell unwritten. -/
theorem claim_C9_witness :
    (∃ n, (pluaL_len env0 [Value.str "abc"] h0 1).2.2.2 = some n) ∧
    (pluaL_len env0 [Value.nil] h0 1).2.2.2 = none ∧
    (plua_tostring env0 [Value.integer 4] { h0 with oracle := [false] } 1 33).2.2.mem =
      ({ h0 with oracle := [false] } : Heap).mem :=
  ⟨(claim_C9.1 env0 [Value.str "abc"] h0 1).1 (by decide),
   (claim_C9.1 env0 [Value.nil] h0 1).2 (by decide),
   (claim_C9.2.2.2.2 env0 [Value.integer 4] { h0 with oracle := [false] } 1 33).2 (by decide)⟩

/-! Closure registration (claim C6). -/

/-- Helper: the trampoline body returns a nonnegative callback result
unchanged (same fact as claim C3, kept separate for reuse). -/
theorem runBody_callRust_ret (env : Env) (a : Nat) (ups stk st1 : List Value) (h h1 : Heap)
    (n : Int) (hcb : env.cbs a stk h = (n, st1, h1)) (hn : 0 ≤ n) :
    runBody env CFunId.sCallRust (Value.lightud a :: ups) stk h = CRet.ret n st1 h1 := by
  simp only [runBody]
  have hud : lua_touserdata ((Value.lightud a :: ups).headD Value.nil) = a := rfl
  rw [hud, hcb]
  rw [if_neg (by simp; omega), if_neg (by simp; omega), if_neg (by simp; omega)]

/-- Reduction of `plua_pushrclosure` to its protected call. -/
theorem pushrclosure_run (env : Env) (ups rest : List Value) (h : Heap) (a : Nat) :
    plua_pushrclosure env (ups ++ rest) h a ups.length =
      lua_pcall env ((Value.cfun CFunId.sCallRust :: (ups ++ [Value.lightud a])) ++
        Value.cfun CFunId.sPushcclosure :: rest) (ups.length + 1 + 1) 1 h := by
  unfold plua_pushrclosure plua_pushcclosure
  rw [lua_insert_top]
  rw [show (ups ++ Value.lightud a :: rest) = ((ups ++ [Value.lightud a]) ++ rest) from by simp]
  have h2 := lua_insert_top (Value.cfun CFunId.sPushcclosure) (ups ++ [Value.lightud a]) rest
  rw [show -(((ups ++ [Value.lightud a]).length : Int) + 1) =
      -(((ups.length + 1 : Nat) : Int) + 1) from by simp] at h2
  simp only [h2]
  rfl

/-- Full evaluation of `plua_pushrclosure`: either the allocation succeeds
and a trampoline closure with the callback pointer as first upvalue is
pushed, or it fails with a relayed memory error. -/
theorem pushrclosure_eval (env : Env) (ups rest : List Value) (h : Heap) (a : Nat) :
    (∃ h2 : Heap, allocStep h = (true, h2) ∧
      plua_pushrclosure env (ups ++ rest) h a ups.length =
        (0, Value.closure h2.nextId :: rest,
          { h2 with
            closures :=
              (h2.nextId, CFunId.sCallRust, Value.lightud a :: ups.reverse) :: h2.closures,
            nextId := h2.nextId + 1 })) ∨
    (∃ h2 : Heap, allocStep h = (false, h2) ∧
      plua_pushrclosure env (ups ++ rest) h a ups.length = (2, memError :: rest, h2)) := by
  have hargsLen : (Value.cfun CFunId.sCallRust :: (ups ++ [Value.lightud a])).length =
      ups.length + 1 + 1 := by simp
  have hrev : (ups ++ [Value.lightud a]).reverse = Value.lightud a :: ups.reverse := by simp
  have hcv : callValue env (Value.cfun CFunId.sPushcclosure)
      (Value.cfun CFunId.sCallRust :: (ups ++ [Value.lightud a])) h =
      runCFun env CFunId.sPushcclosure []
        (Value.cfun CFunId.sCallRust :: (ups ++ [Value.lightud a])) h := rfl
  rcases hal : allocStep h with ⟨b, h2⟩
  cases b with
  | true =>
    left
    refine ⟨h2, rfl, ?_⟩
    rw [pushrclosure_run env ups rest h a,
        lua_pcall_callValue env _ _ rest (ups.length + 1 + 1) 1 h hargsLen, hcv]
    have hrb : runBody env CFunId.sPushcclosure []
        (Value.cfun CFunId.sCallRust :: (ups ++ [Value.lightud a])) h =
        CRet.ret 1 [Value.closure h2.nextId]
          { h2 with
            closures :=
              (h2.nextId, CFunId.sCallRust, Value.lightud a :: ups.reverse) :: h2.closures,
            nextId := h2.nextId + 1 } := by
      simp only [runBody, valueAt_tip, lua_tocfunction]
      simp only [List.drop_succ_cons, List.drop_zero]
      rw [if_neg (by simp), hal]
      simp [hrev]
    unfold runCFun
    rw [hrb]
    rfl
  | false =>
    right
    refine ⟨h2, rfl, ?_⟩
    rw [pushrclosure_run env ups rest h a,
        lua_pcall_callValue env _ _ rest (ups.length + 1 + 1) 1 h hargsLen, hcv]
    have hrb : runBody env CFunId.sPushcclosure []
        (Value.cfun CFunId.sCallRust :: (ups ++ [Value.lightud a])) h =
        CRet.raise memError h2 := by
      simp only [runBody, valueAt_tip, lua_tocfunction]
      simp only [List.drop_succ_cons, List.drop_zero]
      rw [if_neg (by simp), hal]
      simp
    unfold runCFun
    rw [hrb]

/-- C6: registering a trampoline-backed callable with N already-pushed
captured values places the raw host function pointer below those N values
and delegates to the protected closure creation with N+1 total upvalues,
so the pointer becomes the hidden first upvalue of the constructed
closure; invoking that closure retrieves the pointer from upvalue slot 1
and calls the registered host callback. -/
theorem claim_C6 (env : Env) (ups rest : List Value) (h : Heap) (a : Nat) :
    plua_pushrclosure env (ups ++ rest) h a ups.length =
      plua_pushcclosure env
        (lua_insert (Value.lightud a :: (ups ++ rest)) (-((ups.length : Int) + 1))) h
        CFunId.sCallRust (ups.length + 1) ∧
    ((plua_pushrclosure env (ups ++ rest) h a ups.length).1 = 0 →
      ∃ cid,
        (plua_pushrclosure env (ups ++ rest) h a ups.length).2.1 = Value.closure cid :: rest ∧
        lookupClosure (plua_pushrclosure env (ups ++ rest) h a ups.length).2.2 cid =
          some (CFunId.sCallRust, Value.lightud a :: ups.reverse) ∧
        (Value.lightud a :: ups.reverse).length = ups.length + 1 ∧
        (∀ (args rest2 st1 : List Value) (n : Int) (h3 : Heap),
          env.cbs a args (plua_pushrclosure env (ups ++ rest) h a ups.length).2.2 =
            (n, st1, h3) → 0 ≤ n →
          lua_pcall env (args ++ Value.closure cid :: rest2) args.length (-1)
            (plua_pushrclosure env (ups ++ rest) h a ups.length).2.2 =
            (0, st1.take n.toNat ++ rest2, h3))) := by
  constructor
  · rfl
  · intro hok
    rcases pushrclosure_eval env ups rest h a with ⟨h2, hal, heq⟩ | ⟨h2, hal, heq⟩
    · have hcl : lookupClosure (plua_pushrclosure env (ups ++ rest) h a ups.length).2.2
          h2.nextId = some (CFunId.sCallRust, Value.lightud a :: ups.reverse) := by
        rw [heq]
        simp [lookupClosure]
      refine ⟨h2.nextId, by rw [heq], hcl, by simp, ?_⟩
      intro args rest2 st1 n h3 hcb hn
      have hrb := runBody_callRust_ret env a ups.reverse args st1
        (plua_pushrclosure env (ups ++ rest) h a ups.length).2.2 h3 n hcb hn
      exact pcall_rclosure_ret env h2.nextId a ups.reverse args rest2
        (plua_pushrclosure env (ups ++ rest) h a ups.length).2.2 n st1 h3 hcl hrb hn
    · exfalso
      rw [heq] at hok
      exact absurd hok (by norm_num)

theorem claim_C6_witness :
    plua_pushrclosure env0 ([Value.integer 5] ++ []) h0 7
        ([Value.integer 5] : List Value).length =
      plua_pushcclosure env0
        (lua_insert (Value.lightud 7 :: ([Value.integer 5] ++ []))
          (-((([Value.integer 5] : List Value).length : Int) + 1))) h0
        CFunId.sCallRust (([Value.integer 5] : List Value).length + 1) ∧
    (∃ cid, (plua_pushrclosure env0 ([Value.integer 5] ++ []) h0 7
        ([Value.integer 5] : List Value).length).2.1 = Value.closure cid :: []) := by
  refine ⟨(claim_C6 env0 [Value.integer 5] [] h0 7).1, ?_⟩
  rcases (claim_C6 env0 [Value.integer 5] [] h0 7).2 (by decide) with ⟨cid, hstack, _⟩
  exact ⟨cid, hstack⟩

/-! Iteration protocol (claim C7). -/

/-- Driver for repeated protected iteration steps over the table at
absolute stack index 1: performs `fuel` calls of `plua_next`, records
(status, exhaustion flag) for each, and after every successful
"continue" pops the produced value so the new key is on top for the next
call; it stops early on failure or exhaustion. -/
def iterTrace (env : Env) : Nat → List Value → Heap → List (Int × Option Int)
  | 0, _, _ => []
  | fuel + 1, st, h =>
    (((plua_next env st h 1).1, (plua_next env st h 1).2.2.2) ::
      (if (plua_next env st h 1).1 = 0 ∧ (plua_next env st h 1).2.2.2 = some 1 then
        iterTrace env fuel ((plua_next env st h 1).2.1.drop 1) (plua_next env st h 1).2.2.1
      else []))

/-- One protected iteration step that produces a key-value pair. -/
theorem plua_next_step_pair (env : Env) (tid : Nat) (k k' v' : Value) (h : Heap)
    (hnx : engineNext h (Value.table tid) k = ERes.ok (some (k', v')) h) :
    plua_next env (k :: [Value.table tid]) h 1 = (0, [v', k', Value.table tid], h, some 1) := by
  simp only [plua_next]
  have hval : lua_pushvalue (Value.cfun CFunId.sNext :: k :: [Value.table tid])
      (lua_absindex (k :: [Value.table tid]) 1) =
      Value.table tid :: Value.cfun CFunId.sNext :: k :: [Value.table tid] := rfl
  rw [hval, lua_rotate_neg3]
  have hrb : runBody env CFunId.sNext [] [k, Value.table tid] h =
      CRet.ret 2 (v' :: k' :: [Value.table tid]) h := by
    simp only [runBody]
    rw [show valueAt [k, Value.table tid] (-2) = Value.table tid from rfl,
        show valueAt [k, Value.table tid] (-1) = k from rfl, hnx]
    rfl
  have hcv : callValue env (Value.cfun CFunId.sNext) [k, Value.table tid] h =
      runCFun env CFunId.sNext [] [k, Value.table tid] h := rfl
  rw [show (k :: Value.table tid :: Value.cfun CFunId.sNext :: [Value.table tid]) =
      ([k, Value.table tid] ++ Value.cfun CFunId.sNext :: [Value.table tid]) from rfl]
  rw [lua_pcall_callValue env [k, Value.table tid] _ [Value.table tid] 2 (-1) h rfl, hcv]
  unfold runCFun
  rw [hrb]
  rfl

/-- One protected iteration step that hits the end of the table. -/
theorem plua_next_step_done (env : Env) (tid : Nat) (k : Value) (h : Heap)
    (hnx : engineNext h (Value.table tid) k = ERes.ok none h) :
    plua_next env (k :: [Value.table tid]) h 1 = (0, [Value.table tid], h, some 0) := by
  simp only [plua_next]
  have hval : lua_pushvalue (Value.cfun CFunId.sNext :: k :: [Value.table tid])
      (lua_absindex (k :: [Value.table tid]) 1) =
      Value.table tid :: Value.cfun CFunId.sNext :: k :: [Value.table tid] := rfl
  rw [hval, lua_rotate_neg3]
  have hrb : runBody env CFunId.sNext [] [k, Value.table tid] h =
      CRet.ret 0 [Value.table tid] h := by
    simp only [runBody]
    rw [show valueAt [k, Value.table tid] (-2) = Value.table tid from rfl,
        show valueAt [k, Value.table tid] (-1) = k from rfl, hnx]
    rfl
  have hcv : callValue env (Value.cfun CFunId.sNext) [k, Value.table tid] h =
      runCFun env CFunId.sNext [] [k, Value.table tid] h := rfl
  rw [show (k :: Value.table tid :: Value.cfun CFunId.sNext :: [Value.table tid]) =
      ([k, Value.table tid] ++ Value.cfun CFunId.sNext :: [Value.table tid]) from rfl]
  rw [lua_pcall_callValue env [k, Value.table tid] _ [Value.table tid] 2 (-1) h rfl, hcv]
  unfold runCFun
  rw [hrb]
  rfl

/-- Iterating from a key whose entry splits the table finds exactly the
following entry, for tables with pairwise distinct keys. -/
theorem nextAfter_append (pre post : List (Value × Value)) (k' v' : Value)
    (hn : ((pre ++ (k', v') :: post).map Prod.fst).Nodup) :
    nextAfter (pre ++ (k', v') :: post) k' = some post.head? := by
  induction pre with
  | nil =>
    show nextAfter ((k', v') :: post) k' = some post.head?
    simp [nextAfter]
  | cons e pre ih =>
    simp only [List.cons_append, List.map_cons, List.nodup_cons] at hn
    have hne : ¬ (e.1 = k') := by
      intro hEq
      refine hn.1 ?_
      rw [hEq]
      simp
    show nextAfter (e :: (pre ++ (k', v') :: post)) k' = some post.head?
    simp only [nextAfter]
    rw [if_neg hne]
    exact ih hn.2

/-- Engine iteration from the nil key yields the first entry. -/
theorem engineNext_nil (h : Heap) (tid : Nat) (es : List (Value × Value))
    (hes : lookupTable h tid = some es) :
    engineNext h (Value.table tid) Value.nil = ERes.ok es.head? h := by
  show (match lookupTable h tid with
        | some es =>
          if (Value.nil : Value) = Value.nil then ERes.ok es.head? h
          else
            match nextAfter es Value.nil with
            | some r => ERes.ok r h
            | none => ERes.err (Value.str "invalid key to next") h
        | none => ERes.err (Value.str "attempt to iterate an invalid table") h) =
    ERes.ok es.head? h
  rw [hes]
  simp

/-- Engine iteration from a present, non-nil key yields the entry after
it, for tables with pairwise distinct keys. -/
theorem engineNext_mid (h : Heap) (tid : Nat) (es pre post : List (Value × Value))
    (k' v' : Value) (hes : lookupTable h tid = some es)
    (hsplit : es = pre ++ (k', v') :: post)
    (hnodup : (es.map Prod.fst).Nodup) (hk : ¬ (k' = Value.nil)) :
    engineNext h (Value.table tid) k' = ERes.ok post.head? h := by
  show (match lookupTable h tid with
        | some es =>
          if k' = Value.nil then ERes.ok es.head? h
          else
            match nextAfter es k' with
            | some r => ERes.ok r h
            | none => ERes.err (Value.str "invalid key to next") h
        | none => ERes.err (Value.str "attempt to iterate an invalid table") h) =
    ERes.ok post.head? h
  rw [hes]
  show (if k' = Value.nil then ERes.ok es.head? h
        else
          match nextAfter es k' with
          | some r => ERes.ok r h
          | none => ERes.err (Value.str "invalid key to next") h) = ERes.ok post.head? h
  rw [if_neg hk, hsplit, nextAfter_append pre post k' v' (by rw [← hsplit]; exact hnodup)]

set_option maxHeartbeats 2000000 in
/-- Core induction for the iteration trace: from a key whose remaining
entries are `todo`, the driver records one continue per remaining entry
and then a single exhausted step. -/
theorem iterTrace_go (env : Env) (tid : Nat) (es : List (Value × Value)) (h : Heap)
    (hes : lookupTable h tid = some es) (hnodup : (es.map Prod.fst).Nodup)
    (hnil : Value.nil ∉ es.map Prod.fst) :
    ∀ (todo pre : List (Value × Value)) (k : Value),
      es = pre ++ todo →
      engineNext h (Value.table tid) k = ERes.ok todo.head? h →
      iterTrace env (todo.length + 1) (k :: [Value.table tid]) h =
        List.replicate todo.length ((0 : Int), (some 1 : Option Int)) ++ [(0, some 0)] := by
  intro todo
  induction todo with
  | nil =>
    intro pre k hsplit hcur
    show iterTrace env 1 (k :: [Value.table tid]) h = [(0, some 0)]
    simp only [iterTrace]
    rw [plua_next_step_done env tid k h hcur]
    simp
  | cons kv todo ih =>
    intro pre k hsplit hcur
    rcases kv with ⟨k', v'⟩
    have hk : ¬ (k' = Value.nil) := by
      intro hEq
      refine hnil ?_
      rw [← hEq, hsplit]
      simp
    have hcur' : engineNext h (Value.table tid) k' = ERes.ok todo.head? h :=
      engineNext_mid h tid es pre todo k' v' hes hsplit hnodup hk
    have htail := ih (pre ++ [(k', v')]) k'
      (by rw [hsplit, List.append_assoc]; rfl) hcur'
    rw [show (((k', v') :: todo).length : Nat) = todo.length + 1 from rfl]
    simp only [iterTrace]
    rw [plua_next_step_pair env tid k k' v' h hcur]
    show ((0 : Int), (some 1 : Option Int)) ::
        (if (0 : Int) = 0 ∧ (some 1 : Option Int) = some 1 then
          iterTrace env (todo.length + 1) (k' :: [Value.table tid]) h
        else []) =
      List.replicate (todo.length + 1) ((0 : Int), (some 1 : Option Int)) ++ [(0, some 0)]
    rw [if_pos ⟨rfl, rfl⟩, htail, List.replicate_succ]
    rfl

/-- C7: iterating a table with K entries via the protected iteration step
(K times, then once more) yields exactly K continue results with a
key-value pair pushed, then one exhausted result with nothing pushed,
whatever the entry order; the embedded `plua_next` computes the flag by
comparing stack depth before and after the protected call. -/
theorem claim_C7 (env : Env) (tid : Nat) (es : List (Value × Value)) (h : Heap)
    (hes : lookupTable h tid = some es) (hnodup : (es.map Prod.fst).Nodup)
    (hnil : Value.nil ∉ es.map Prod.fst) :
    iterTrace env (es.length + 1) (Value.nil :: [Value.table tid]) h =
      List.replicate es.length ((0 : Int), (some 1 : Option Int)) ++ [(0, some 0)] :=
  iterTrace_go env tid es h hes hnodup hnil es [] Value.nil (by simp)
    (engineNext_nil h tid es hes)

theorem claim_C7_witness :
    iterTrace env0 (2 + 1) (Value.nil :: [Value.table 5]) hT =
      List.replicate 2 ((0 : Int), (some 1 : Option Int)) ++ [(0, some 0)] :=
  claim_C7 env0 5 [(Value.integer 7, Value.integer 9), (Value.str "a", Value.boolean true)]
    hT (by decide) (by decide) (by decide)
